import Mathlib

/-!
# Turnpike router core: broker and dealer

A shallow embedding of `broker.go` and `dealer.go` and the properties of their
routing tables, followed by the counters of `websocket_stats.go`.

Modelling conventions.

* A Go `map[K]V` is an `AList`: a finite association list without duplicate
  keys.  Go leaves the iteration order of a map unspecified, so the order of
  the entries carries no meaning; `m[k] = v` is `AList.insert`, `delete(m, k)`
  is `AList.erase`, `v, ok := m[k]` is `AList.lookup`.
* A `Sender` (an interface value compared by reference) is the natural number
  naming the peer object; a `*Session` is a record holding the address of the
  pointed object together with the two fields the routing code reads.
* `ID` is an unsigned 64 bit integer: a natural number, with the increment
  of `nextRequestId` taken modulo `2 ^ 64`.
* `peer.Send(msg)` and `go peer.Send(msg)` have no effect on the routing state;
  an operation returns, next to the new state, the list of the sends it issued,
  each a pair of the receiving peer and the message.
* A nil map and an empty map are the same dictionary: the code only reads them.
* `NewID()` draws from the global generator, whose code is not part of the
  routing engines: the drawn value is an argument of the operation.
-/

namespace Turnpike

/-- A Go map: finite, no duplicate keys. -/
abbrev GoMap (K V : Type) := AList (fun _ : K => V)

abbrev URI := String
abbrev ID := Nat
abbrev Sender := Nat

/-- The values an `interface{}` slot of a message dictionary can carry, as far
as the routing code tells them apart: a boolean or something else. -/
inductive Value where
  | null : Value
  | bool (b : Bool) : Value
  | num (n : Int) : Value
  | str (s : String) : Value
  deriving DecidableEq, Repr

/-- A `map[string]interface{}`. -/
abbrev Dict := GoMap String Value

/-- A `[]interface{}`. -/
abbrev Args := List Value

/-- The type assertion `v.(bool)` in its two-result form, applied to a map
read `m[key]`: the boolean and `true` when the entry exists and holds a
boolean, `false` and `false` otherwise. -/
def assertBool (d : Dict) (key : String) : Bool × Bool :=
  match d.lookup key with
  | some (Value.bool b) => (b, true)
  | _ => (false, false)

/-- The message kinds returned by `MessageType()` for the requests the routing
code answers with an `ERROR`. -/
inductive MessageType where
  | SUBSCRIBE | UNSUBSCRIBE | PUBLISH | REGISTER | UNREGISTER | CALL | YIELD
  deriving DecidableEq, Repr

/-- The messages the routing code builds, each with the fields the code sets. -/
inductive Message where
  | Subscribed (Request Subscription : ID)
  | Unsubscribed (Request : ID)
  | Published (Request Publication : ID)
  | Event (Publication Subscription : ID) (Details : Dict)
      (Arguments : Args) (ArgumentsKw : Dict)
  | Error (Type_ : MessageType) (Request : ID) (Details : Dict) (Error : URI)
  | Registered (Request Registration : ID)
  | Unregistered (Request : ID)
  | Invocation (Request Registration : ID) (Details : Dict)
      (Arguments : Args) (ArgumentsKw : Dict)
  | Result (Request : ID) (Details : Dict) (Arguments : Args) (ArgumentsKw : Dict)
  deriving DecidableEq

/-- An `EVENT` message. -/
def Message.isEvent : Message → Bool
  | Message.Event _ _ _ _ _ => true
  | _ => false

/-- A `PUBLISHED` message. -/
def Message.isPublished : Message → Bool
  | Message.Published _ _ => true
  | _ => false

/-- An `INVOCATION` message. -/
def Message.isInvocation : Message → Bool
  | Message.Invocation _ _ _ _ _ => true
  | _ => false

/-- One `Send`: the receiving peer and the message. -/
abbrev Sent := Sender × Message

structure Session where
  /-- The address of the session object: the identity of the `*Session`. -/
  ptr : Nat
  Id : ID
  Peer : Sender
  deriving DecidableEq, Repr

structure Subscribe where
  Request : ID
  Topic : URI

structure Unsubscribe where
  Request : ID
  Subscription : ID

structure Publish where
  Request : ID
  Options : Dict
  Topic : URI
  Arguments : Args
  ArgumentsKw : Dict

/-- Modelled from the spec: the constant `MAX_REQUEST_ID`, declared outside the
routing engines, is `2^53 - 1`. -/
def MAX_REQUEST_ID : ID := 2 ^ 53 - 1

/-- Modelled from the spec: the error URI constant `ErrNoSuchSubscription`,
declared outside the routing engines, is `wamp.error.no_such_subscription`. -/
def ErrNoSuchSubscription : URI := "wamp.error.no_such_subscription"

/-! ## Broker -/

structure defaultBroker where
  routes : GoMap URI (GoMap ID Sender)
  subscriptions : GoMap ID URI
  subscribers : GoMap Nat (List ID)
  lastRequestId : ID

/-- `NewDefaultBroker`. -/
def NewDefaultBroker : defaultBroker :=
  { routes := ∅, subscriptions := ∅, subscribers := ∅, lastRequestId := 0 }

/-- `nextRequestId`: the new broker and the returned ID. -/
def defaultBroker.nextRequestId (br : defaultBroker) : defaultBroker × ID :=
  let n := (br.lastRequestId + 1) % 2 ^ 64
  let n := if n > MAX_REQUEST_ID then 1 else n
  ({ br with lastRequestId := n }, n)

/-- The entry `routes[t][id]`, when the bucket and the entry exist. -/
def defaultBroker.route (br : defaultBroker) (t : URI) (id : ID) : Option Sender :=
  (br.routes.lookup t).bind (fun r => r.lookup id)

/-- The slice `subscribers[sess]`: the zero value (no element) without entry. -/
def defaultBroker.idsOf (br : defaultBroker) (sess : Session) : List ID :=
  (br.subscribers.lookup sess.ptr).getD []

/-- The local `excludePublisher` of `Publish`: `true` unless
`Options["exclude_me"]` holds a boolean, which then decides. -/
def excludePublisher (msg : Publish) : Bool :=
  match assertBool msg.Options "exclude_me" with
  | (exclude, true) => exclude
  | (_, false) => true

/-- The local `doPub` of `Publish`: the first result of
`Options["acknowledge"].(bool)`. -/
def doPub (msg : Publish) : Bool :=
  (assertBool msg.Options "acknowledge").1

/-- `Publish`, with the publication ID that `NewID()` returned.  The loop over
`routes[msg.Topic]` visits the entries of the bucket, none when the topic has
no bucket. -/
def defaultBroker.Publish (br : defaultBroker) (sess : Session) (msg : Publish)
    (pubID : ID) : defaultBroker × List Sent :=
  let pub := sess.Peer
  let evtTemplate : ID → Message := fun id =>
    Message.Event pubID id ∅ msg.Arguments msg.ArgumentsKw
  let bucket := (br.routes.lookup msg.Topic).getD ∅
  let events : List Sent := bucket.entries.filterMap (fun e =>
    if e.2 ≠ pub ∨ !excludePublisher msg then some (e.2, evtTemplate e.1) else none)
  let acks : List Sent :=
    if doPub msg then [(pub, Message.Published msg.Request pubID)] else []
  (br, events ++ acks)

/-- `Subscribe`. -/
def defaultBroker.Subscribe (br : defaultBroker) (sess : Session) (msg : Subscribe) :
    defaultBroker × List Sent :=
  let br :=
    if br.routes.lookup msg.Topic = none then
      { br with routes := br.routes.insert msg.Topic ∅ }
    else br
  let (br, id) := br.nextRequestId
  let bucket := ((br.routes.lookup msg.Topic).getD ∅).insert id sess.Peer
  let br := { br with routes := br.routes.insert msg.Topic bucket }
  let br := { br with subscriptions := br.subscriptions.insert id msg.Topic }
  let ids := match br.subscribers.lookup sess.ptr with
    | some ids => ids
    | none => []
  let ids := ids ++ [id]
  let br := { br with subscribers := br.subscribers.insert sess.ptr ids }
  (br, [(sess.Peer, Message.Subscribed msg.Request id)])

/-- The unexported `unsubscribe`: the new broker and the returned boolean. -/
def defaultBroker.unsubscribe (br : defaultBroker) (sess : Session) (id : ID) :
    defaultBroker × Bool :=
  match br.subscriptions.lookup id with
  | none => (br, false)
  | some topic =>
    let subscriptions := br.subscriptions.erase id
    let routes :=
      match br.routes.lookup topic with
      | none => br.routes
      | some r =>
        match r.lookup id with
        | none => br.routes
        | some _ =>
          let r := r.erase id
          if r.entries.length = 0 then br.routes.erase topic
          else br.routes.insert topic r
    -- the loop variable shadows the parameter: the test compares it to itself
    let ids := (br.idsOf sess).filter (fun id => id != id)
    let subscribers :=
      if ids.length = 0 then br.subscribers.erase sess.ptr
      else br.subscribers.insert sess.ptr ids
    ({ br with routes := routes, subscriptions := subscriptions,
               subscribers := subscribers }, true)

/-- `RemoveSession`: the range expression `subscribers[sess]` is evaluated once,
before the first iteration, and `unsubscribe` never writes to the array behind
that slice (its filter keeps no element). -/
def defaultBroker.RemoveSession (br : defaultBroker) (sess : Session) :
    defaultBroker × List Sent :=
  ((br.idsOf sess).foldl (fun b id => (b.unsubscribe sess id).1) br, [])

/-- `Unsubscribe`. -/
def defaultBroker.Unsubscribe (br : defaultBroker) (sess : Session) (msg : Unsubscribe) :
    defaultBroker × List Sent :=
  match br.unsubscribe sess msg.Subscription with
  | (br, false) =>
    (br, [(sess.Peer, Message.Error MessageType.UNSUBSCRIBE msg.Request ∅
            ErrNoSuchSubscription)])
  | (br, true) => (br, [(sess.Peer, Message.Unsubscribed msg.Request)])

/-- A live subscription: `id` is a key of `subscriptions` and of the `routes`
bucket of its topic. -/
def defaultBroker.live (br : defaultBroker) (id : ID) : Bool :=
  match br.subscriptions.lookup id with
  | none => false
  | some t => (br.route t id).isSome

/-! ## Dealer -/

structure Register where
  Request : ID
  Options : Dict
  Procedure : URI

structure Unregister where
  Request : ID
  Registration : ID

structure Call where
  Request : ID
  Options : Dict
  Procedure : URI
  Arguments : Args
  ArgumentsKw : Dict

structure Yield where
  Request : ID
  Options : Dict
  Arguments : Args
  ArgumentsKw : Dict

/-- Modelled from the spec: the error URI constant
`WAMP_ERROR_PROCEDURE_ALREADY_EXISTS`, declared outside the routing engines. -/
def WAMP_ERROR_PROCEDURE_ALREADY_EXISTS : URI := "wamp.error.procedure_already_exists"

/-- Modelled from the spec: the error URI constant
`WAMP_ERROR_NO_SUCH_REGISTRATION`, declared outside the routing engines. -/
def WAMP_ERROR_NO_SUCH_REGISTRATION : URI := "wamp.error.no_such_registration"

/-- Modelled from the spec: the error URI constant
`WAMP_ERROR_NO_SUCH_PROCEDURE`, declared outside the routing engines. -/
def WAMP_ERROR_NO_SUCH_PROCEDURE : URI := "wamp.error.no_such_procedure"

structure RemoteProcedure where
  Endpoint : Sender
  Procedure : URI
  deriving DecidableEq, Repr

/-- The zero value of `RemoteProcedure`, the element `make([]RemoteProcedure, 1)`
starts with.  `Disconnect` reads only its `Procedure` field, the empty string;
the number standing for its nil endpoint is never looked at. -/
def RemoteProcedure.zero : RemoteProcedure := ⟨0, ""⟩

structure defaultDealer where
  procedures : GoMap ID RemoteProcedure
  registrations : GoMap URI ID
  calls : GoMap ID Sender
  invocations : GoMap ID ID

/-- `NewDefaultDealer`. -/
def NewDefaultDealer : defaultDealer :=
  { procedures := ∅, registrations := ∅, calls := ∅, invocations := ∅ }

/-- `Register`, with the value `reg` that `NewID()` returns when it is called. -/
def defaultDealer.Register (d : defaultDealer) (callee : Sender) (msg : Register)
    (reg : ID) : defaultDealer × List Sent :=
  match d.registrations.lookup msg.Procedure with
  | some _ =>
    (d, [(callee, Message.Error MessageType.REGISTER msg.Request ∅
            WAMP_ERROR_PROCEDURE_ALREADY_EXISTS)])
  | none =>
    let d := { d with procedures := d.procedures.insert reg ⟨callee, msg.Procedure⟩ }
    let d := { d with registrations := d.registrations.insert msg.Procedure reg }
    (d, [(callee, Message.Registered msg.Request reg)])

/-- `Unregister`. -/
def defaultDealer.Unregister (d : defaultDealer) (callee : Sender) (msg : Unregister) :
    defaultDealer × List Sent :=
  match d.procedures.lookup msg.Registration with
  | none =>
    (d, [(callee, Message.Error MessageType.UNREGISTER msg.Request ∅
            WAMP_ERROR_NO_SUCH_REGISTRATION)])
  | some procedure =>
    let d := { d with registrations := d.registrations.erase procedure.Procedure }
    let d := { d with procedures := d.procedures.erase msg.Registration }
    (d, [(callee, Message.Unregistered msg.Request)])

/-- `Disconnect`: both slices start with one zero element. -/
def defaultDealer.Disconnect (d : defaultDealer) (callee : Sender) : defaultDealer :=
  let hits := d.procedures.entries.filter (fun e => e.2.Endpoint = callee)
  let proceduresToDelete : List RemoteProcedure :=
    [RemoteProcedure.zero] ++ hits.map (fun e => e.2)
  let registrationsToDelete : List ID := [0] ++ hits.map (fun e => e.1)
  let d := proceduresToDelete.foldl
    (fun d p => { d with registrations := d.registrations.erase p.Procedure }) d
  registrationsToDelete.foldl
    (fun d r => { d with procedures := d.procedures.erase r }) d

/-- `Call`, with the value `invocationID` that `NewID()` returns when it is
called. -/
def defaultDealer.Call (d : defaultDealer) (caller : Sender) (msg : Call)
    (invocationID : ID) : defaultDealer × List Sent :=
  match d.registrations.lookup msg.Procedure with
  | none =>
    (d, [(caller, Message.Error MessageType.CALL msg.Request ∅
            WAMP_ERROR_NO_SUCH_PROCEDURE)])
  | some reg =>
    match d.procedures.lookup reg with
    | none =>
      (d, [(caller, Message.Error MessageType.CALL msg.Request ∅
              "wamp.error.internal_error")])
    | some rproc =>
      let d := { d with calls := d.calls.insert msg.Request caller }
      let d := { d with invocations := d.invocations.insert invocationID msg.Request }
      (d, [(rproc.Endpoint,
            Message.Invocation invocationID reg ∅ msg.Arguments msg.ArgumentsKw)])

/-- `Yield`. -/
def defaultDealer.Yield (d : defaultDealer) (_callee : Sender) (msg : Yield) :
    defaultDealer × List Sent :=
  match d.invocations.lookup msg.Request with
  | none => (d, [])
  | some callID =>
    let d := { d with invocations := d.invocations.erase msg.Request }
    match d.calls.lookup callID with
    | none => (d, [])
    | some caller =>
      let d := { d with calls := d.calls.erase callID }
      (d, [(caller, Message.Result callID ∅ msg.Arguments msg.ArgumentsKw)])

/-! ## Sequences of operations -/

/-- One call of the broker interface, with its arguments. -/
inductive BrokerOp where
  | subscribe (sess : Session) (msg : Subscribe)
  | unsubscribe (sess : Session) (msg : Unsubscribe)
  | removeSession (sess : Session)
  | publish (sess : Session) (msg : Publish) (pubID : ID)

/-- The session that issues the call. -/
def BrokerOp.session : BrokerOp → Session
  | BrokerOp.subscribe sess _ => sess
  | BrokerOp.unsubscribe sess _ => sess
  | BrokerOp.removeSession sess => sess
  | BrokerOp.publish sess _ _ => sess

/-- The broker after one call, and what the call sent. -/
def defaultBroker.step (br : defaultBroker) : BrokerOp → defaultBroker × List Sent
  | BrokerOp.subscribe sess msg => br.Subscribe sess msg
  | BrokerOp.unsubscribe sess msg => br.Unsubscribe sess msg
  | BrokerOp.removeSession sess => br.RemoveSession sess
  | BrokerOp.publish sess msg pubID => br.Publish sess msg pubID

/-- The broker after a sequence of calls, and everything the calls sent, in
the order of the calls. -/
def defaultBroker.run (br : defaultBroker) : List BrokerOp → defaultBroker × List Sent
  | [] => (br, [])
  | op :: ops => (((br.step op).1.run ops).1, (br.step op).2 ++ ((br.step op).1.run ops).2)

/-- The calls that keep the session index exact: a `Subscribe` whose new ID is
not a key of `subscriptions` at that moment, and an `Unsubscribe` that names
either an ID unknown to `subscriptions` or the one ID listed for the calling
session. -/
def defaultBroker.admits (br : defaultBroker) : BrokerOp → Bool
  | BrokerOp.subscribe _ _ => (br.subscriptions.lookup br.nextRequestId.2).isNone
  | BrokerOp.unsubscribe sess msg =>
    (br.subscriptions.lookup msg.Subscription).isNone ||
      br.subscribers.lookup sess.ptr == some [msg.Subscription]
  | _ => true

/-- Every call of the sequence is admitted by the state it is applied to. -/
def defaultBroker.admitsAll (br : defaultBroker) : List BrokerOp → Bool
  | [] => true
  | op :: ops => br.admits op && (br.step op).1.admitsAll ops

/-- The subscription IDs carried by the `SUBSCRIBED` messages of a list of
sends. -/
def subscribedIDs (out : List Sent) : List ID :=
  out.filterMap (fun x =>
    match x.2 with
    | Message.Subscribed _ id => some id
    | _ => none)

/-- The agreement of the three indices of the broker: an entry of a `routes`
bucket has its topic in `subscriptions`; a key of `subscriptions` is listed for
some session; a slice of `subscribers` is not empty and lists keys of
`subscriptions` only; no ID is listed for two sessions; no bucket is empty. -/
structure defaultBroker.Consistent (br : defaultBroker) : Prop where
  routed : ∀ t id, br.route t id ≠ none → br.subscriptions.lookup id = some t
  listed : ∀ id t, br.subscriptions.lookup id = some t →
    ∃ p ids, br.subscribers.lookup p = some ids ∧ id ∈ ids
  live : ∀ p ids, br.subscribers.lookup p = some ids →
    ids ≠ [] ∧ ∀ id ∈ ids, br.subscriptions.lookup id ≠ none
  owner : ∀ p p2 ids ids2 id, br.subscribers.lookup p = some ids →
    br.subscribers.lookup p2 = some ids2 → id ∈ ids → id ∈ ids2 → p = p2
  buckets : ∀ t b, br.routes.lookup t = some b → b.entries ≠ []

/-- One call of the dealer interface, with its arguments and, where the call
draws one, the value `NewID()` returns. -/
inductive DealerOp where
  | register (callee : Sender) (msg : Register) (reg : ID)
  | unregister (callee : Sender) (msg : Unregister)
  | disconnect (callee : Sender)
  | call (caller : Sender) (msg : Call) (invocationID : ID)
  | yield (callee : Sender) (msg : Yield)

/-- The dealer after one call, and what the call sent. -/
def defaultDealer.step (d : defaultDealer) : DealerOp → defaultDealer × List Sent
  | DealerOp.register callee msg reg => d.Register callee msg reg
  | DealerOp.unregister callee msg => d.Unregister callee msg
  | DealerOp.disconnect callee => (d.Disconnect callee, [])
  | DealerOp.call caller msg invocationID => d.Call caller msg invocationID
  | DealerOp.yield callee msg => d.Yield callee msg

/-- The dealer after a sequence of calls. -/
def defaultDealer.run (d : defaultDealer) : List DealerOp → defaultDealer
  | [] => d
  | op :: ops => (d.step op).1.run ops

/-- The calls that do not reuse an outstanding call ID: a `Call` whose
`Request` is not a key of `calls` at that moment. -/
def defaultDealer.admits (d : defaultDealer) : DealerOp → Bool
  | DealerOp.call _ msg _ => (d.calls.lookup msg.Request).isNone
  | _ => true

/-- Every call of the sequence is admitted by the state it is applied to. -/
def defaultDealer.admitsAll (d : defaultDealer) : List DealerOp → Bool
  | [] => true
  | op :: ops => d.admits op && (d.step op).1.admitsAll ops

/-- The agreement of the two registration indices of the dealer: the URI of
`procedures[reg]` is mapped to `reg` by `registrations`, an entry
`registrations[u] = reg` has a procedure with URI `u` at `procedures[reg]`, and
neither the ID 0 nor the empty URI is a key. -/
structure defaultDealer.Paired (d : defaultDealer) : Prop where
  toReg : ∀ reg rp, d.procedures.lookup reg = some rp →
    d.registrations.lookup rp.Procedure = some reg
  toProc : ∀ u reg, d.registrations.lookup u = some reg →
    ∃ e, d.procedures.lookup reg = some ⟨e, u⟩
  noZero : d.procedures.lookup 0 = none
  noEmpty : d.registrations.lookup "" = none

/-- The calls under which the two registration indices stay in step: a
`Register` names a non-empty procedure URI and, when it draws a registration
ID, draws one that is at least 1 and is not a key of `procedures` at that
moment. -/
def defaultDealer.admitsRegistration (d : defaultDealer) : DealerOp → Bool
  | DealerOp.register _ msg reg =>
    (msg.Procedure != "") &&
      ((d.registrations.lookup msg.Procedure).isSome ||
        (decide (1 ≤ reg) && (d.procedures.lookup reg).isNone))
  | _ => true

/-- Every call of the sequence is admitted, in the sense of
`admitsRegistration`, by the state it is applied to. -/
def defaultDealer.admitsRegistrationAll (d : defaultDealer) : List DealerOp → Bool
  | [] => true
  | op :: ops => d.admitsRegistration op && (d.step op).1.admitsRegistrationAll ops

/-! ## Websocket statistics -/

def WSStatsNewPeer : Nat := 0
def WSStatsSend : Nat := 1
def WSStatsRecv : Nat := 2
def WSStatsClose : Nat := 3
def WSStatsErrPeerTimeout : Nat := 4
def WSStatsErrPeerClosed : Nat := 5
def WSStatsItemCount : Nat := 6

/-- The counters `count [WSStatsItemCount]uint64`; the lock is left out. -/
structure websocketStats where
  count : Fin 6 → Nat

/-- The zero value of the global `wsStats`. -/
def wsStats : websocketStats := ⟨fun _ => 0⟩

/-- `bumpCount`: the increment of a `uint64` wraps at `2 ^ 64`. -/
def websocketStats.bumpCount (s : websocketStats) (item : Int) : websocketStats :=
  if h : item < 0 ∨ item ≥ 6 then s
  else
    ⟨Function.update s.count ⟨item.toNat, by omega⟩
      ((s.count ⟨item.toNat, by omega⟩ + 1) % 2 ^ 64)⟩

/-- The text `fmt.Sprintf` builds in `formatAndClear`. -/
def websocketStats.format (s : websocketStats) : String :=
  "WS New: " ++ toString (s.count 0) ++ " Send: " ++ toString (s.count 1) ++
  " Recv: " ++ toString (s.count 2) ++ " Close: " ++ toString (s.count 3) ++
  " PeerTO: " ++ toString (s.count 4) ++ " PeerClosed: " ++ toString (s.count 5)

/-- `formatAndClear`.  The loop `for _, i := range s.count` ranges over a copy
of the array, taken before the first iteration, and binds `i` to the counter
values, not to the indices; `s.count[i] = 0` panics (here `none`) when the
value is not below the length 6 of the array. -/
def websocketStats.formatAndClear (s : websocketStats) :
    Option (websocketStats × String) :=
  let str := s.format
  let values : List Nat := List.ofFn s.count
  let cleared : Option (Fin 6 → Nat) := values.foldlM
    (fun count i => if h : i < 6 then some (Function.update count ⟨i, h⟩ 0) else none)
    s.count
  cleared.map (fun count => (⟨count⟩, str))

/-! ## Sample states -/

/-- A broker with one subscription: session 1 (peer 7) holds subscription 1 on
topic `t`. -/
def brOne : defaultBroker := (NewDefaultBroker.Subscribe ⟨1, 0, 7⟩ ⟨123, "t"⟩).1

/-- Session 5 with peer 7. -/
def sessFive : Session := ⟨5, 0, 7⟩

/-- A broker whose `subscribers` lists session 5 with an empty slice. -/
def brEmptySlice : defaultBroker :=
  { routes := ∅, subscriptions := ∅,
    subscribers := (∅ : GoMap Nat (List ID)).insert 5 [], lastRequestId := 0 }

/-- A broker in which subscription 1, of topic `t` and listed for session 5, is
also a key of the bucket of topic `u`. -/
def brTwoBuckets : defaultBroker :=
  { routes := ((∅ : GoMap URI (GoMap ID Sender)).insert "u"
      ((∅ : GoMap ID Sender).insert 1 7)).insert "t" ((∅ : GoMap ID Sender).insert 1 7),
    subscriptions := (∅ : GoMap ID URI).insert 1 "t",
    subscribers := (∅ : GoMap Nat (List ID)).insert 5 [1], lastRequestId := 1 }

/-- A broker in which topic `t` has an empty bucket, next to subscription 1 of
session 5 on topic `u`. -/
def brEmptyBucket : defaultBroker :=
  { routes := ((∅ : GoMap URI (GoMap ID Sender)).insert "u"
      ((∅ : GoMap ID Sender).insert 1 7)).insert "t" ∅,
    subscriptions := (∅ : GoMap ID URI).insert 1 "u",
    subscribers := (∅ : GoMap Nat (List ID)).insert 5 [1], lastRequestId := 1 }

/-- Session 6 with peer 8. -/
def sessSix : Session := ⟨6, 0, 8⟩

/-- A broker with two subscriptions on topic `t`: subscription 1 of session 5
(peer 7) and subscription 2 of session 6 (peer 8). -/
def brTwoSubs : defaultBroker :=
  ((NewDefaultBroker.Subscribe sessFive ⟨1, "t"⟩).1.Subscribe sessSix ⟨1, "t"⟩).1

/-- The options `{"exclude_me": false}`. -/
def optsNoExclude : Dict := (∅ : Dict).insert "exclude_me" (Value.bool false)

/-- The options `{"acknowledge": true}`. -/
def optsAck : Dict := (∅ : Dict).insert "acknowledge" (Value.bool true)

/-- A dealer in which peer 7 has registered `com.ex.add` under registration 50. -/
def dOne : defaultDealer := (NewDefaultDealer.Register 7 ⟨1, ∅, "com.ex.add"⟩ 50).1

/-- A dealer in which peer 7 has registered the empty URI under registration 50. -/
def dEmptyURI : defaultDealer := (NewDefaultDealer.Register 7 ⟨1, ∅, ""⟩ 50).1

/-- A dealer in which peer 7 has registered `com.ex.add` and the generator
returned the registration ID 0. -/
def dZeroID : defaultDealer := (NewDefaultDealer.Register 7 ⟨1, ∅, "com.ex.add"⟩ 0).1

/-- A broker in which session 5 holds subscriptions 1 and 2 on topic `t`. -/
def brSameSession : defaultBroker :=
  ((NewDefaultBroker.Subscribe sessFive ⟨1, "t"⟩).1.Subscribe sessFive ⟨2, "t"⟩).1

/-- A call sequence in which caller 8 issues two calls with request ID 5 before
the first one is answered. -/
def opsReusedRequest : List DealerOp :=
  [DealerOp.register 7 ⟨1, ∅, "com.ex.add"⟩ 50,
   DealerOp.call 8 ⟨5, ∅, "com.ex.add", [], ∅⟩ 60,
   DealerOp.call 8 ⟨5, ∅, "com.ex.add", [], ∅⟩ 61,
   DealerOp.yield 7 ⟨60, ∅, [], ∅⟩]

/-- A call sequence with two outstanding calls of distinct request IDs, the
first of them answered. -/
def opsDistinctRequests : List DealerOp :=
  [DealerOp.register 7 ⟨1, ∅, "com.ex.add"⟩ 50,
   DealerOp.call 8 ⟨5, ∅, "com.ex.add", [], ∅⟩ 60,
   DealerOp.call 8 ⟨6, ∅, "com.ex.add", [], ∅⟩ 61,
   DealerOp.yield 7 ⟨60, ∅, [], ∅⟩]

/-- A call sequence in which session 6 unsubscribes the subscription of session
5, and both sessions are removed at the end. -/
def opsForeignUnsubscribe : List BrokerOp :=
  [BrokerOp.subscribe sessFive ⟨1, "t"⟩,
   BrokerOp.unsubscribe sessSix ⟨2, 1⟩,
   BrokerOp.removeSession sessFive,
   BrokerOp.removeSession sessSix]

/-- A call sequence in which each session unsubscribes only its single
subscription or an unknown ID. -/
def opsOwnUnsubscribe : List BrokerOp :=
  [BrokerOp.subscribe sessFive ⟨1, "t"⟩,
   BrokerOp.subscribe sessSix ⟨1, "t"⟩,
   BrokerOp.unsubscribe sessSix ⟨2, 2⟩,
   BrokerOp.unsubscribe sessSix ⟨3, 99⟩,
   BrokerOp.subscribe sessFive ⟨2, "u"⟩,
   BrokerOp.subscribe sessSix ⟨4, "u"⟩]

/-- A broker whose counter has reached `MAX_REQUEST_ID` while subscription 1 of
session 5 on topic `t` is still live. -/
def brWrapped : defaultBroker :=
  { routes := (∅ : GoMap URI (GoMap ID Sender)).insert "t" ((∅ : GoMap ID Sender).insert 1 7),
    subscriptions := (∅ : GoMap ID URI).insert 1 "t",
    subscribers := (∅ : GoMap Nat (List ID)).insert 5 [1],
    lastRequestId := MAX_REQUEST_ID }

/-- Counters after five received messages and nothing else. -/
def statsRecvFive : websocketStats :=
  ⟨fun i => if i = 2 then 5 else 0⟩

/-- Counters after one event of each kind. -/
def statsAllOne : websocketStats := ⟨fun _ => 1⟩

/-- Counters after six new peers and nothing else. -/
def statsSixPeers : websocketStats :=
  ⟨fun i => if i = 0 then 6 else 0⟩

/-- A call sequence with two callees, a duplicate registration, a disconnect
and an unregistration. -/
def opsRegistrations : List DealerOp :=
  [DealerOp.register 7 ⟨1, ∅, "com.ex.add"⟩ 50,
   DealerOp.register 8 ⟨1, ∅, "com.ex.mul"⟩ 51,
   DealerOp.register 8 ⟨2, ∅, "com.ex.add"⟩ 50,
   DealerOp.call 9 ⟨5, ∅, "com.ex.add", [], ∅⟩ 60,
   DealerOp.disconnect 8,
   DealerOp.unregister 9 ⟨3, 50⟩,
   DealerOp.register 8 ⟨3, ∅, "com.ex.add"⟩ 52]

theorem nextRequestId_arith (n : Nat) (h : n ≤ 2 ^ 53 - 1) :
    (if (n + 1) % 2 ^ 64 > 2 ^ 53 - 1 then 1 else (n + 1) % 2 ^ 64) ≠ 0 := by
  split <;> omega

theorem nextRequestId_snd_ne_zero (br : defaultBroker)
    (h : br.lastRequestId ≤ MAX_REQUEST_ID) : br.nextRequestId.2 ≠ 0 :=
  nextRequestId_arith br.lastRequestId h

theorem Subscribe_snd (br : defaultBroker) (S : Session) (msg : Subscribe) :
    (br.Subscribe S msg).2 = [(S.Peer, Message.Subscribed msg.Request br.nextRequestId.2)] := by
  by_cases hl : br.routes.lookup msg.Topic = none <;>
    simp [defaultBroker.Subscribe, defaultBroker.nextRequestId, hl]

theorem Subscribe_lastRequestId (br : defaultBroker) (S : Session) (msg : Subscribe) :
    (br.Subscribe S msg).1.lastRequestId = br.nextRequestId.2 := by
  by_cases hl : br.routes.lookup msg.Topic = none <;>
    simp [defaultBroker.Subscribe, defaultBroker.nextRequestId, hl]

theorem Subscribe_subscriptions (br : defaultBroker) (S : Session) (msg : Subscribe) :
    (br.Subscribe S msg).1.subscriptions =
      br.subscriptions.insert br.nextRequestId.2 msg.Topic := by
  by_cases hl : br.routes.lookup msg.Topic = none <;>
    simp [defaultBroker.Subscribe, defaultBroker.nextRequestId, hl]

theorem Subscribe_subscribers (br : defaultBroker) (S : Session) (msg : Subscribe) :
    (br.Subscribe S msg).1.subscribers =
      br.subscribers.insert S.ptr (br.idsOf S ++ [br.nextRequestId.2]) := by
  by_cases hl : br.routes.lookup msg.Topic = none <;>
    cases hs : br.subscribers.lookup S.ptr <;>
    simp [defaultBroker.Subscribe, defaultBroker.nextRequestId, defaultBroker.idsOf, hl, hs]

theorem Subscribe_routes (br : defaultBroker) (S : Session) (msg : Subscribe) :
    (br.Subscribe S msg).1.routes =
      br.routes.insert msg.Topic
        (((br.routes.lookup msg.Topic).getD ∅).insert br.nextRequestId.2 S.Peer) := by
  by_cases hl : br.routes.lookup msg.Topic = none
  · simp [defaultBroker.Subscribe, defaultBroker.nextRequestId, hl, AList.insert_insert]
  · simp [defaultBroker.Subscribe, defaultBroker.nextRequestId, hl]

theorem filter_ne_self (l : List ID) : l.filter (fun id => id != id) = [] := by
  induction l with
  | nil => rfl
  | cons a l ih => simp [List.filter]

theorem lookup_of_length_zero {K V : Type} [DecidableEq K] (m : GoMap K V)
    (h : m.entries.length = 0) (k : K) : m.lookup k = none := by
  have he : m.entries = [] := List.eq_nil_of_length_eq_zero h
  rw [AList.lookup_eq_none, AList.mem_keys, AList.keys, he]
  simp

theorem unsubscribe_none (br : defaultBroker) (sess : Session) (id : ID)
    (h : br.subscriptions.lookup id = none) : br.unsubscribe sess id = (br, false) := by
  simp [defaultBroker.unsubscribe, h]

theorem unsubscribe_snd (br : defaultBroker) (sess : Session) (id : ID) :
    (br.unsubscribe sess id).2 = (br.subscriptions.lookup id).isSome := by
  cases h : br.subscriptions.lookup id <;> simp [defaultBroker.unsubscribe, h]

theorem unsubscribe_subscriptions (br : defaultBroker) (sess : Session) (id : ID) :
    (br.unsubscribe sess id).1.subscriptions = br.subscriptions.erase id := by
  cases h : br.subscriptions.lookup id
  · simp only [defaultBroker.unsubscribe, h]
    apply AList.ext
    rw [AList.lookup_eq_none, AList.mem_keys] at h
    simp only [AList.erase]
    rw [List.kerase_of_not_mem_keys]
    exact h
  · simp [defaultBroker.unsubscribe, h]

theorem unsubscribe_subscriptions_lookup (br : defaultBroker) (sess : Session) (id k : ID) :
    (br.unsubscribe sess id).1.subscriptions.lookup k =
      if k = id then none else br.subscriptions.lookup k := by
  rw [unsubscribe_subscriptions]
  by_cases hk : k = id
  · subst hk; simp
  · simp [hk, AList.lookup_erase_ne hk]

theorem unsubscribe_subscribers_lookup (br : defaultBroker) (sess : Session) (id : ID)
    (p : Nat) :
    (br.unsubscribe sess id).1.subscribers.lookup p =
      if p = sess.ptr ∧ (br.subscriptions.lookup id).isSome then none
      else br.subscribers.lookup p := by
  cases h : br.subscriptions.lookup id
  · simp [defaultBroker.unsubscribe, h]
  · by_cases hp : p = sess.ptr
    · subst hp; simp [defaultBroker.unsubscribe, h, filter_ne_self]
    · simp [defaultBroker.unsubscribe, h, filter_ne_self, hp, AList.lookup_erase_ne hp]

theorem unsubscribe_routes_lookup_ne (br : defaultBroker) (sess : Session) (id : ID)
    (t : URI) (h : br.subscriptions.lookup id ≠ some t) :
    (br.unsubscribe sess id).1.routes.lookup t = br.routes.lookup t := by
  cases hs : br.subscriptions.lookup id with
  | none => simp [defaultBroker.unsubscribe, hs]
  | some topic =>
    have hne : t ≠ topic := by
      intro e; apply h; rw [hs, e]
    simp only [defaultBroker.unsubscribe, hs]
    cases hb : br.routes.lookup topic with
    | none => simp
    | some r =>
      simp only
      cases hr : r.lookup id with
      | none => simp
      | some q =>
        simp only
        split
        · exact AList.lookup_erase_ne hne
        · exact AList.lookup_insert_ne hne

theorem unsubscribe_routes_lookup_eq (br : defaultBroker) (sess : Session) (id : ID)
    (t : URI) (h : br.subscriptions.lookup id = some t) :
    (br.unsubscribe sess id).1.routes.lookup t =
      match br.routes.lookup t with
      | none => none
      | some r =>
        if r.lookup id = none then some r
        else if (r.erase id).entries.length = 0 then none
        else some (r.erase id) := by
  simp only [defaultBroker.unsubscribe, h]
  cases hb : br.routes.lookup t with
  | none => simp [hb]
  | some r =>
    simp only
    cases hr : r.lookup id with
    | none => simp [hb]
    | some q =>
      simp only
      split <;> simp_all

theorem unsubscribe_route (br : defaultBroker) (sess : Session) (id : ID)
    (t : URI) (k : ID) :
    (br.unsubscribe sess id).1.route t k =
      if k = id ∧ br.subscriptions.lookup id = some t then none else br.route t k := by
  by_cases hs : br.subscriptions.lookup id = some t
  · simp only [defaultBroker.route, unsubscribe_routes_lookup_eq br sess id t hs]
    cases hb : br.routes.lookup t with
    | none => simp
    | some r =>
      by_cases hk : k = id
      · subst hk
        by_cases hr : r.lookup k = none
        · simp [hr, hs]
        · simp only [hr, if_false]
          split <;> simp [hs]
      · by_cases hr : r.lookup id = none
        · simp [hr, hk]
        · simp only [hr, if_false, hk, false_and]
          split
          · rename_i hlen
            have := lookup_of_length_zero _ hlen k
            rw [AList.lookup_erase_ne hk] at this
            simp [this]
          · simp [AList.lookup_erase_ne hk]
  · simp [defaultBroker.route, unsubscribe_routes_lookup_ne br sess id t hs, hs]

theorem Unsubscribe_eq (br : defaultBroker) (sess : Session) (msg : Unsubscribe) :
    br.Unsubscribe sess msg =
      ((br.unsubscribe sess msg.Subscription).1,
        if (br.subscriptions.lookup msg.Subscription).isSome then
          [(sess.Peer, Message.Unsubscribed msg.Request)]
        else [(sess.Peer, Message.Error MessageType.UNSUBSCRIBE msg.Request ∅
                ErrNoSuchSubscription)]) := by
  have h2 := unsubscribe_snd br sess msg.Subscription
  unfold defaultBroker.Unsubscribe
  cases hu : br.unsubscribe sess msg.Subscription with
  | mk b ok =>
    rw [hu] at h2
    cases ok <;> simp_all

theorem erase_entries_of_only_key (r : GoMap ID Sender) (id : ID)
    (honly : ∀ k ∈ r.keys, k = id) : (r.erase id).entries.length = 0 := by
  have hk : (r.erase id).keys = [] := by
    rw [AList.keys_erase, List.eq_nil_iff_forall_not_mem]
    intro k hk
    have hmem : k ∈ r.keys := List.mem_of_mem_erase hk
    have := honly k hmem
    subst this
    exact (List.Nodup.mem_erase_iff r.keys_nodup).1 hk |>.1 rfl
  have : (r.erase id).entries = [] := by
    simpa [AList.keys, List.keys] using hk
  simp [this]

/-- C1: from a broker whose counter is at most `MAX_REQUEST_ID`, `Subscribe`
sends exactly one message, `SUBSCRIBED` with the request ID of the `SUBSCRIBE`
and a non-zero subscription ID `id` (the next value of the counter), to the
peer of the session; in the resulting state `subscriptions[id]` is the topic,
`routes[topic][id]` is the peer of the session and `id` is listed in
`subscribers[S]`. -/
theorem Subscribe_creates_subscription (br : defaultBroker) (S : Session) (r : ID)
    (t : URI) (h : br.lastRequestId ≤ MAX_REQUEST_ID) :
    br.nextRequestId.2 ≠ 0 ∧
    (br.Subscribe S ⟨r, t⟩).2 = [(S.Peer, Message.Subscribed r br.nextRequestId.2)] ∧
    (br.Subscribe S ⟨r, t⟩).1.subscriptions.lookup br.nextRequestId.2 = some t ∧
    ((br.Subscribe S ⟨r, t⟩).1.routes.lookup t).bind
      (fun bucket => bucket.lookup br.nextRequestId.2) = some S.Peer ∧
    (∃ ids, (br.Subscribe S ⟨r, t⟩).1.subscribers.lookup S.ptr = some ids ∧
      br.nextRequestId.2 ∈ ids) := by
  refine ⟨nextRequestId_snd_ne_zero br h, Subscribe_snd br S ⟨r, t⟩, ?_, ?_, ?_⟩
  · rw [Subscribe_subscriptions]; simp
  · rw [Subscribe_routes]; simp
  · rw [Subscribe_subscribers]; simp

theorem Subscribe_creates_subscription_witness :
    (NewDefaultBroker.Subscribe ⟨1, 0, 7⟩ ⟨123, "t"⟩).2 = [(7, Message.Subscribed 123 1)] ∧
    (NewDefaultBroker.Subscribe ⟨1, 0, 7⟩ ⟨123, "t"⟩).1.subscriptions.lookup 1 = some "t" :=
  ⟨(Subscribe_creates_subscription NewDefaultBroker ⟨1, 0, 7⟩ 123 "t" (by decide)).2.1,
   (Subscribe_creates_subscription NewDefaultBroker ⟨1, 0, 7⟩ 123 "t" (by decide)).2.2.1⟩

/-- C2: when `id` is a live subscription on topic `t` (`subscriptions[id] = t`
and `id` is a key of `routes[t]`) listed in `subscribers[sess]`, `Unsubscribe`
sends exactly one message, `UNSUBSCRIBED` with the request ID, to the peer of
the session; afterwards `id` is a key neither of `subscriptions` nor of
`routes[t]` and is not listed in `subscribers[sess]`; `routes` has no entry for
`t` when `id` was the only key of `routes[t]`, and `subscribers` has no entry
for the session when `id` was the only ID listed for it. -/
theorem Unsubscribe_removes_subscription (br : defaultBroker) (sess : Session)
    (r id : ID) (t : URI)
    (hsub : br.subscriptions.lookup id = some t)
    (hroute : ∃ bucket, br.routes.lookup t = some bucket ∧ id ∈ bucket.keys)
    (_hlisted : ∃ ids, br.subscribers.lookup sess.ptr = some ids ∧ id ∈ ids) :
    (br.Unsubscribe sess ⟨r, id⟩).2 = [(sess.Peer, Message.Unsubscribed r)] ∧
    (br.Unsubscribe sess ⟨r, id⟩).1.subscriptions.lookup id = none ∧
    (∀ bucket, (br.Unsubscribe sess ⟨r, id⟩).1.routes.lookup t = some bucket →
      id ∉ bucket.keys) ∧
    (∀ ids, (br.Unsubscribe sess ⟨r, id⟩).1.subscribers.lookup sess.ptr = some ids →
      id ∉ ids) ∧
    ((∀ bucket, br.routes.lookup t = some bucket → ∀ k ∈ bucket.keys, k = id) →
      (br.Unsubscribe sess ⟨r, id⟩).1.routes.lookup t = none) ∧
    ((∀ ids, br.subscribers.lookup sess.ptr = some ids → ∀ k ∈ ids, k = id) →
      (br.Unsubscribe sess ⟨r, id⟩).1.subscribers.lookup sess.ptr = none) := by
  obtain ⟨bucket, hb, hid⟩ := hroute
  have hsubs : (br.Unsubscribe sess ⟨r, id⟩).1.subscribers.lookup sess.ptr = none := by
    rw [Unsubscribe_eq]
    simp [unsubscribe_subscribers_lookup, hsub]
  refine ⟨?_, ?_, ?_, ?_, ?_, fun _ => hsubs⟩
  · rw [Unsubscribe_eq]; simp [hsub]
  · rw [Unsubscribe_eq]; simp [unsubscribe_subscriptions_lookup]
  · intro b hb2
    have hr := unsubscribe_route br sess id t id
    rw [Unsubscribe_eq] at hb2
    simp only [defaultBroker.route] at hr
    rw [hb2] at hr
    simp only [hsub, and_self, if_true, Option.some_bind] at hr
    rw [← AList.mem_keys, ← AList.lookup_eq_none]
    exact hr
  · intro ids hids
    rw [hsubs] at hids
    cases hids
  · intro honly
    rw [Unsubscribe_eq]
    simp only
    rw [unsubscribe_routes_lookup_eq br sess id t hsub, hb]
    have hl : bucket.lookup id ≠ none := by
      rw [Ne, AList.lookup_eq_none, AList.mem_keys]; exact fun h => h hid
    simp [hl, erase_entries_of_only_key bucket id (honly bucket hb)]

theorem Unsubscribe_removes_subscription_witness :
    (brOne.Unsubscribe ⟨1, 0, 7⟩ ⟨124, 1⟩).2 = [(7, Message.Unsubscribed 124)] ∧
    (brOne.Unsubscribe ⟨1, 0, 7⟩ ⟨124, 1⟩).1.subscriptions.lookup 1 = none :=
  have h := Unsubscribe_removes_subscription brOne ⟨1, 0, 7⟩ 124 1 "t" (by decide)
    ⟨(∅ : GoMap ID Sender).insert 1 7, rfl, by decide⟩ ⟨[1], by decide, by decide⟩
  ⟨h.1, h.2.1⟩

/-- C3: when `id` is not a key of `subscriptions`, `Unsubscribe` sends exactly
one message to the peer of the session, an `ERROR` with the request ID and the
error URI `wamp.error.no_such_subscription` (so no `UNSUBSCRIBED`), and leaves
`routes`, `subscriptions` and `subscribers` as they were. -/
theorem Unsubscribe_unknown_subscription (br : defaultBroker) (sess : Session)
    (r id : ID) (h : br.subscriptions.lookup id = none) :
    (br.Unsubscribe sess ⟨r, id⟩).2 =
      [(sess.Peer, Message.Error MessageType.UNSUBSCRIBE r ∅
          "wamp.error.no_such_subscription")] ∧
    (∀ x ∈ (br.Unsubscribe sess ⟨r, id⟩).2, ∀ q, x.2 ≠ Message.Unsubscribed q) ∧
    (br.Unsubscribe sess ⟨r, id⟩).1.routes = br.routes ∧
    (br.Unsubscribe sess ⟨r, id⟩).1.subscriptions = br.subscriptions ∧
    (br.Unsubscribe sess ⟨r, id⟩).1.subscribers = br.subscribers := by
  rw [Unsubscribe_eq]
  simp [h, unsubscribe_none, ErrNoSuchSubscription]

theorem Unsubscribe_unknown_subscription_witness :
    (brOne.Unsubscribe ⟨1, 0, 7⟩ ⟨9, 99999⟩).2 =
      [(7, Message.Error MessageType.UNSUBSCRIBE 9 ∅ "wamp.error.no_such_subscription")] :=
  (Unsubscribe_unknown_subscription brOne ⟨1, 0, 7⟩ 9 99999 (by decide)).1

/-! ### `RemoveSession`: the loop over `subscribers[sess]` -/

theorem foldl_unsubscribe_subscriptions_lookup (sess : Session) (ids : List ID) :
    ∀ (br : defaultBroker) (k : ID),
      (ids.foldl (fun b id => (b.unsubscribe sess id).1) br).subscriptions.lookup k =
        if k ∈ ids then none else br.subscriptions.lookup k := by
  induction ids with
  | nil => intro br k; simp
  | cons id rest ih =>
    intro br k
    rw [List.foldl_cons, ih, unsubscribe_subscriptions_lookup]
    by_cases h1 : k ∈ rest <;> by_cases h2 : k = id <;> simp [h1, h2]

theorem foldl_unsubscribe_route_not_mem (sess : Session) (ids : List ID) :
    ∀ (br : defaultBroker) (t : URI) (k : ID), k ∉ ids →
      (ids.foldl (fun b id => (b.unsubscribe sess id).1) br).route t k = br.route t k := by
  induction ids with
  | nil => intro br t k _; rfl
  | cons id rest ih =>
    intro br t k hk
    have h1 : k ∉ rest := fun h => hk (List.mem_cons_of_mem _ h)
    have h2 : k ≠ id := fun h => hk (h ▸ List.mem_cons_self _ _)
    rw [List.foldl_cons, ih _ t k h1, unsubscribe_route]
    simp [h2]

theorem foldl_unsubscribe_route_none (sess : Session) (ids : List ID) :
    ∀ (br : defaultBroker) (t : URI) (k : ID), br.route t k = none →
      (ids.foldl (fun b id => (b.unsubscribe sess id).1) br).route t k = none := by
  induction ids with
  | nil => intro br t k h; exact h
  | cons id rest ih =>
    intro br t k h
    rw [List.foldl_cons]
    apply ih
    rw [unsubscribe_route]
    split
    · rfl
    · exact h

theorem foldl_unsubscribe_route_mem (sess : Session) (ids : List ID) :
    ∀ (br : defaultBroker) (k : ID), k ∈ ids →
      (∀ t, br.route t k ≠ none → br.subscriptions.lookup k = some t) →
      ∀ t, (ids.foldl (fun b id => (b.unsubscribe sess id).1) br).route t k = none := by
  induction ids with
  | nil => intro br k hk; cases hk
  | cons id rest ih =>
    intro br k hk hinv t
    rw [List.foldl_cons]
    by_cases hid : k = id
    · subst hid
      apply foldl_unsubscribe_route_none
      rw [unsubscribe_route]
      by_cases hr : br.route t k = none
      · simp [hr]
      · simp [hinv t hr]
    · have hk2 : k ∈ rest := by
        cases hk with
        | head => exact absurd rfl hid
        | tail _ h => exact h
      apply ih _ k hk2
      intro t2 ht2
      rw [unsubscribe_route] at ht2
      rw [unsubscribe_subscriptions_lookup]
      simp only [hid, false_and, if_false] at ht2 ⊢
      exact hinv t2 ht2

theorem foldl_unsubscribe_subscribers_ne (sess : Session) (ids : List ID) :
    ∀ (br : defaultBroker) (p : Nat), p ≠ sess.ptr →
      (ids.foldl (fun b id => (b.unsubscribe sess id).1) br).subscribers.lookup p =
        br.subscribers.lookup p := by
  induction ids with
  | nil => intro br p _; rfl
  | cons id rest ih =>
    intro br p hp
    rw [List.foldl_cons, ih _ p hp, unsubscribe_subscribers_lookup]
    simp [hp]

theorem foldl_unsubscribe_subscribers_none (sess : Session) (ids : List ID) :
    ∀ (br : defaultBroker), br.subscribers.lookup sess.ptr = none →
      (ids.foldl (fun b id => (b.unsubscribe sess id).1) br).subscribers.lookup sess.ptr
        = none := by
  induction ids with
  | nil => intro br h; exact h
  | cons id rest ih =>
    intro br h
    rw [List.foldl_cons]
    apply ih
    rw [unsubscribe_subscribers_lookup]
    simp [h]

theorem unsubscribe_bucket_nonempty (br : defaultBroker) (sess : Session) (id : ID)
    (t : URI) (h : ∀ b, br.routes.lookup t = some b → b.entries ≠ []) :
    ∀ b, (br.unsubscribe sess id).1.routes.lookup t = some b → b.entries ≠ [] := by
  intro b hb
  by_cases hs : br.subscriptions.lookup id = some t
  · rw [unsubscribe_routes_lookup_eq br sess id t hs] at hb
    cases hl : br.routes.lookup t with
    | none => rw [hl] at hb; cases hb
    | some r =>
      rw [hl] at hb
      simp only at hb
      split at hb
      · cases hb; exact h _ hl
      · split at hb
        · cases hb
        · rename_i hlen
          cases hb
          intro he
          exact hlen (by simp [he])
  · rw [unsubscribe_routes_lookup_ne br sess id t hs] at hb
    exact h b hb

theorem foldl_unsubscribe_bucket_nonempty (sess : Session) (ids : List ID) (t : URI) :
    ∀ (br : defaultBroker), (∀ b, br.routes.lookup t = some b → b.entries ≠ []) →
      ∀ b, (ids.foldl (fun b id => (b.unsubscribe sess id).1) br).routes.lookup t = some b →
        b.entries ≠ [] := by
  induction ids with
  | nil => intro br h; exact h
  | cons id rest ih =>
    intro br h
    rw [List.foldl_cons]
    exact ih _ (unsubscribe_bucket_nonempty br sess id t h)

theorem route_eq_none_iff (br : defaultBroker) (t : URI) (k : ID) :
    br.route t k = none ↔ ∀ b, br.routes.lookup t = some b → k ∉ b.keys := by
  unfold defaultBroker.route
  cases h : br.routes.lookup t with
  | none => simp
  | some r =>
    simp only [Option.some_bind, Option.some.injEq, forall_eq']
    rw [AList.lookup_eq_none, AList.mem_keys]

theorem live_isSome (br : defaultBroker) (id : ID) (h : br.live id = true) :
    (br.subscriptions.lookup id).isSome = true := by
  unfold defaultBroker.live at h
  cases hs : br.subscriptions.lookup id with
  | none => rw [hs] at h; cases h
  | some t => rfl

theorem exists_key_of_entries_ne_nil (b : GoMap ID Sender) (h : b.entries ≠ []) :
    ∃ k, k ∈ b.keys := by
  cases he : b.entries with
  | nil => exact absurd he h
  | cons e rest => exact ⟨e.1, by simp [AList.keys, List.keys, he]⟩

/-- On any value of the state record, reached by the broker or not: where
`subscribers[S]`, when present, is not the empty slice, and each ID listed in
`subscribers[S]` is a live subscription and is a key of no `routes` bucket
other than that of its topic, `RemoveSession(S)` sends no message; afterwards
none of those IDs is a key of `subscriptions` or of any `routes` bucket, every
topic that had a non-empty bucket whose keys were all listed for `S` has no
`routes` entry, and `subscribers` has no entry for `S`; the `subscribers`
entries of other sessions and the `subscriptions` and `routes` entries of the
IDs not listed for `S` are unchanged. -/
theorem RemoveSession_removes_subscriptions (br : defaultBroker) (S : Session)
    (hlive : ∀ id ∈ br.idsOf S, br.live id = true)
    (hown : ∀ id ∈ br.idsOf S, ∀ e ∈ br.routes.entries, id ∈ e.2.keys →
      br.subscriptions.lookup id = some e.1)
    (hne : br.subscribers.lookup S.ptr ≠ some []) :
    (br.RemoveSession S).2 = [] ∧
    (∀ id ∈ br.idsOf S,
      (br.RemoveSession S).1.subscriptions.lookup id = none ∧
      ∀ t bucket, (br.RemoveSession S).1.routes.lookup t = some bucket →
        id ∉ bucket.keys) ∧
    (∀ t bucket, br.routes.lookup t = some bucket → bucket.entries ≠ [] →
      (∀ k ∈ bucket.keys, k ∈ br.idsOf S) →
      (br.RemoveSession S).1.routes.lookup t = none) ∧
    (br.RemoveSession S).1.subscribers.lookup S.ptr = none ∧
    (∀ p, p ≠ S.ptr →
      (br.RemoveSession S).1.subscribers.lookup p = br.subscribers.lookup p) ∧
    (∀ id, id ∉ br.idsOf S →
      (br.RemoveSession S).1.subscriptions.lookup id = br.subscriptions.lookup id ∧
      ∀ t, (br.RemoveSession S).1.route t id = br.route t id) := by
  have hinv : ∀ id ∈ br.idsOf S, ∀ t, br.route t id ≠ none →
      br.subscriptions.lookup id = some t := by
    intro id hid t ht
    rw [Ne, route_eq_none_iff] at ht
    push_neg at ht
    obtain ⟨b, hb, hk⟩ := ht
    exact hown id hid ⟨t, b⟩ (AList.mem_lookup_iff.1 hb) hk
  have hgone : ∀ id ∈ br.idsOf S, ∀ t, (br.RemoveSession S).1.route t id = none :=
    fun id hid t => foldl_unsubscribe_route_mem S _ br id hid (hinv id hid) t
  refine ⟨rfl, ?_, ?_, ?_, ?_, ?_⟩
  · intro id hid
    refine ⟨?_, fun t => (route_eq_none_iff _ t id).1 (hgone id hid t)⟩
    simp only [defaultBroker.RemoveSession, foldl_unsubscribe_subscriptions_lookup]
    simp [hid]
  · intro t bucket hb hnonempty hall
    cases hafter : (br.RemoveSession S).1.routes.lookup t with
    | none => rfl
    | some b2 =>
      exfalso
      have hb2 : b2.entries ≠ [] :=
        foldl_unsubscribe_bucket_nonempty S (br.idsOf S) t br
          (fun b hb3 => by rw [hb] at hb3; cases hb3; exact hnonempty) b2 hafter
      obtain ⟨k, hk⟩ := exists_key_of_entries_ne_nil b2 hb2
      have hroute : (br.RemoveSession S).1.route t k ≠ none := by
        rw [Ne, route_eq_none_iff]
        intro h
        exact h b2 hafter hk
      by_cases hmem : k ∈ br.idsOf S
      · exact hroute (hgone k hmem t)
      · apply hmem
        apply hall
        have := foldl_unsubscribe_route_not_mem S (br.idsOf S) br t k hmem
        simp only [defaultBroker.RemoveSession] at hroute
        rw [this, Ne, route_eq_none_iff] at hroute
        push_neg at hroute
        obtain ⟨b, hb3, hk3⟩ := hroute
        rw [hb] at hb3
        cases hb3
        exact hk3
  · simp only [defaultBroker.RemoveSession]
    cases hs : br.subscribers.lookup S.ptr with
    | none =>
      exact foldl_unsubscribe_subscribers_none S _ br hs
    | some ids =>
      cases ids with
      | nil => exact absurd hs hne
      | cons id rest =>
        have hids : br.idsOf S = id :: rest := by simp [defaultBroker.idsOf, hs]
        rw [hids, List.foldl_cons]
        apply foldl_unsubscribe_subscribers_none
        rw [unsubscribe_subscribers_lookup]
        have := live_isSome br id (hlive id (by rw [hids]; exact List.mem_cons_self _ _))
        simp [this]
  · intro p hp
    exact foldl_unsubscribe_subscribers_ne S _ br p hp
  · intro id hid
    refine ⟨?_, fun t => foldl_unsubscribe_route_not_mem S _ br t id hid⟩
    simp only [defaultBroker.RemoveSession, foldl_unsubscribe_subscriptions_lookup]
    simp [hid]

theorem RemoveSession_removes_subscriptions_witness :
    (brOne.RemoveSession ⟨1, 0, 7⟩).1.subscribers.lookup 1 = none ∧
    (brOne.RemoveSession ⟨1, 0, 7⟩).1.routes.lookup "t" = none :=
  have h := RemoveSession_removes_subscriptions brOne ⟨1, 0, 7⟩ (by decide) (by decide)
    (by decide)
  ⟨h.2.2.2.1,
   h.2.2.1 "t" ((∅ : GoMap ID Sender).insert 1 7) rfl (by decide) (by decide)⟩

/-- Three values of the state record that no sequence of calls produces before
the counter wraps, and what `RemoveSession` does at them: an empty slice listed
for `S` keeps its `subscribers` entry, an ID that is also a key of the bucket
of another topic stays a key of that bucket, and an empty bucket keeps its
`routes` entry. -/
theorem RemoveSession_at_malformed_states :
    ((∀ id ∈ brEmptySlice.idsOf sessFive, brEmptySlice.live id = true) ∧
      (brEmptySlice.RemoveSession sessFive).1.subscribers.lookup sessFive.ptr = some []) ∧
    ((∀ id ∈ brTwoBuckets.idsOf sessFive, brTwoBuckets.live id = true) ∧
      1 ∈ brTwoBuckets.idsOf sessFive ∧
      (brTwoBuckets.RemoveSession sessFive).1.route "u" 1 = some 7) ∧
    ((∀ id ∈ brEmptyBucket.idsOf sessFive, brEmptyBucket.live id = true) ∧
      brEmptyBucket.routes.lookup "t" = some ∅ ∧
      (brEmptyBucket.RemoveSession sessFive).1.routes.lookup "t" = some ∅) :=
  ⟨by decide, by decide, by decide, rfl, rfl⟩

/-! ### `Publish` -/

theorem excludePublisher_of_false (msg : Publish)
    (h : msg.Options.lookup "exclude_me" = some (Value.bool false)) :
    excludePublisher msg = false := by
  simp [excludePublisher, assertBool, h]

theorem excludePublisher_of_true (msg : Publish)
    (h : msg.Options.lookup "exclude_me" = none ∨
      msg.Options.lookup "exclude_me" = some (Value.bool true)) :
    excludePublisher msg = true := by
  rcases h with h | h <;> simp [excludePublisher, assertBool, h]

theorem doPub_of_true (msg : Publish)
    (h : msg.Options.lookup "acknowledge" = some (Value.bool true)) :
    doPub msg = true := by
  simp [doPub, assertBool, h]

theorem doPub_of_false (msg : Publish)
    (h : msg.Options.lookup "acknowledge" = none ∨
      msg.Options.lookup "acknowledge" = some (Value.bool false)) :
    doPub msg = false := by
  rcases h with h | h <;> simp [doPub, assertBool, h]

theorem Publish_snd (br : defaultBroker) (sess : Session) (msg : Publish) (pubID : ID) :
    (br.Publish sess msg pubID).2 =
      ((br.routes.lookup msg.Topic).getD ∅).entries.filterMap (fun e =>
        if e.2 ≠ sess.Peer ∨ !excludePublisher msg then
          some (e.2, Message.Event pubID e.1 ∅ msg.Arguments msg.ArgumentsKw)
        else none) ++
      (if doPub msg then [(sess.Peer, Message.Published msg.Request pubID)] else []) :=
  rfl

theorem filter_isEvent_acks (c : Bool) (x : Sent) (hx : x.2.isEvent = false) :
    (if c then [x] else []).filter (fun y => y.2.isEvent) = [] := by
  cases c <;> simp [hx]

/-- C5: for a `PUBLISH` on topic `T` in which no delivery is excluded
(`exclude_me` is `false`, or no entry of `routes[T]` points at the peer of the
publisher), the `EVENT`s that `Publish` sends are exactly one per entry
`(id, peer)` of `routes[T]`: sent to `peer`, with `Subscription = id`, the one
publication ID, empty `Details` and the `Arguments` and `ArgumentsKw` of the
`PUBLISH`; every `EVENT` sent thus answers an entry of `routes[T]`, none a
subscription of another topic only. -/
theorem Publish_sends_one_event_per_subscription (br : defaultBroker) (sess : Session)
    (msg : Publish) (pubID : ID)
    (h : msg.Options.lookup "exclude_me" = some (Value.bool false) ∨
      ∀ e ∈ ((br.routes.lookup msg.Topic).getD ∅).entries, e.2 ≠ sess.Peer) :
    (br.Publish sess msg pubID).2.filter (fun x => x.2.isEvent) =
      ((br.routes.lookup msg.Topic).getD ∅).entries.map (fun e =>
        (e.2, Message.Event pubID e.1 ∅ msg.Arguments msg.ArgumentsKw)) ∧
    (∀ x ∈ (br.Publish sess msg pubID).2, x.2.isEvent = true →
      ∃ id, br.route msg.Topic id = some x.1 ∧
        x.2 = Message.Event pubID id ∅ msg.Arguments msg.ArgumentsKw) := by
  have hmap : ((br.routes.lookup msg.Topic).getD ∅).entries.filterMap (fun e =>
        if e.2 ≠ sess.Peer ∨ !excludePublisher msg then
          some (e.2, Message.Event pubID e.1 ∅ msg.Arguments msg.ArgumentsKw)
        else none) =
      ((br.routes.lookup msg.Topic).getD ∅).entries.map (fun e =>
        (e.2, Message.Event pubID e.1 ∅ msg.Arguments msg.ArgumentsKw)) := by
    rw [← List.filterMap_eq_map]
    apply List.filterMap_congr
    intro e he
    rcases h with h | h
    · simp [excludePublisher_of_false msg h]
    · simp [h e he]
  have hfilter : (br.Publish sess msg pubID).2.filter (fun x => x.2.isEvent) =
      ((br.routes.lookup msg.Topic).getD ∅).entries.map (fun e =>
        (e.2, Message.Event pubID e.1 ∅ msg.Arguments msg.ArgumentsKw)) := by
    rw [Publish_snd, hmap, List.filter_append,
      filter_isEvent_acks (doPub msg) (sess.Peer, Message.Published msg.Request pubID) rfl,
      List.append_nil, List.filter_eq_self]
    intro x hx
    obtain ⟨e, _, rfl⟩ := List.mem_map.1 hx
    rfl
  refine ⟨hfilter, ?_⟩
  intro x hx hev
  have hx2 : x ∈ (br.Publish sess msg pubID).2.filter (fun x => x.2.isEvent) :=
    List.mem_filter.2 ⟨hx, by simpa using hev⟩
  rw [hfilter] at hx2
  obtain ⟨e, he, rfl⟩ := List.mem_map.1 hx2
  refine ⟨e.1, ?_, rfl⟩
  unfold defaultBroker.route
  cases hb : br.routes.lookup msg.Topic with
  | none => rw [hb] at he; simp at he
  | some bucket =>
    rw [hb] at he
    simp only [Option.getD_some] at he
    simp only [Option.some_bind]
    exact AList.mem_lookup_iff.2 he

theorem Publish_sends_one_event_per_subscription_witness :
    (brTwoSubs.Publish sessFive ⟨7, optsNoExclude, "t", [Value.num 42], ∅⟩ 99).2.filter
        (fun x => x.2.isEvent) =
      [(8, Message.Event 99 2 ∅ [Value.num 42] ∅),
       (7, Message.Event 99 1 ∅ [Value.num 42] ∅)] :=
  (Publish_sends_one_event_per_subscription brTwoSubs sessFive
    ⟨7, optsNoExclude, "t", [Value.num 42], ∅⟩ 99 (Or.inl (by decide))).1

theorem Publish_events_to_others (br : defaultBroker) (sess : Session) (msg : Publish)
    (pubID : ID) :
    (br.Publish sess msg pubID).2.filter (fun x => x.2.isEvent && x.1 != sess.Peer) =
      ((br.routes.lookup msg.Topic).getD ∅).entries.filterMap (fun e =>
        if e.2 ≠ sess.Peer then
          some (e.2, Message.Event pubID e.1 ∅ msg.Arguments msg.ArgumentsKw)
        else none) := by
  have hacks : (if doPub msg then [(sess.Peer, Message.Published msg.Request pubID)]
      else []).filter (fun x => x.2.isEvent && x.1 != sess.Peer) = [] := by
    cases doPub msg <;> simp [Message.isEvent]
  rw [Publish_snd, List.filter_append, hacks, List.append_nil, List.filter_filterMap]
  apply List.filterMap_congr
  intro e _
  by_cases hp : e.2 = sess.Peer
  · by_cases hx : excludePublisher msg = true <;> simp [hp, hx]
  · simp [hp, Message.isEvent]

/-- C6: when the peer `P` of the publisher holds subscription `id` on topic
`T`, `Publish` on `T` sends no `EVENT` to `P` if `Options` has no `exclude_me`
entry or `exclude_me` is `true`, and sends `P` the `EVENT` with
`Subscription = id` if `exclude_me` is `false`; the `EVENT`s sent to the other
peers are the same whatever `Options` holds. -/
theorem Publish_exclude_me (br : defaultBroker) (sess : Session) (r : ID) (T : URI)
    (a : Args) (k : Dict) (pubID id : ID)
    (hsub : br.route T id = some sess.Peer) :
    (∀ o : Dict,
      (o.lookup "exclude_me" = none ∨ o.lookup "exclude_me" = some (Value.bool true)) →
      ∀ x ∈ (br.Publish sess ⟨r, o, T, a, k⟩ pubID).2, x.2.isEvent = true →
        x.1 ≠ sess.Peer) ∧
    (∀ o : Dict, o.lookup "exclude_me" = some (Value.bool false) →
      (sess.Peer, Message.Event pubID id ∅ a k) ∈
        (br.Publish sess ⟨r, o, T, a, k⟩ pubID).2) ∧
    (∀ o₁ o₂ : Dict,
      (br.Publish sess ⟨r, o₁, T, a, k⟩ pubID).2.filter
          (fun x => x.2.isEvent && x.1 != sess.Peer) =
        (br.Publish sess ⟨r, o₂, T, a, k⟩ pubID).2.filter
          (fun x => x.2.isEvent && x.1 != sess.Peer)) := by
  refine ⟨?_, ?_, ?_⟩
  · intro o ho x hx hev hP
    rw [Publish_snd, List.mem_append] at hx
    rcases hx with hx | hx
    · obtain ⟨e, _, he⟩ := List.mem_filterMap.1 hx
      have hex : excludePublisher ⟨r, o, T, a, k⟩ = true :=
        excludePublisher_of_true ⟨r, o, T, a, k⟩ ho
      by_cases hp : e.2 = sess.Peer
      · simp [hp, hex] at he
      · simp only [hex, Bool.not_true, Bool.false_eq_true, or_false] at he
        rw [if_pos hp] at he
        cases he
        exact hp hP
    · split at hx
      · rw [List.mem_singleton] at hx
        subst hx
        cases hev
      · cases hx
  · intro o ho
    rw [Publish_snd, List.mem_append]
    left
    rw [List.mem_filterMap]
    unfold defaultBroker.route at hsub
    cases hb : br.routes.lookup T with
    | none => rw [hb] at hsub; cases hsub
    | some bucket =>
      rw [hb] at hsub
      simp only [Option.some_bind] at hsub
      refine ⟨⟨id, sess.Peer⟩, ?_, ?_⟩
      · simp only [hb, Option.getD_some]
        exact AList.mem_lookup_iff.1 hsub
      · have hex : excludePublisher ⟨r, o, T, a, k⟩ = false :=
          excludePublisher_of_false ⟨r, o, T, a, k⟩ ho
        simp [hex]
  · intro o₁ o₂
    rw [Publish_events_to_others, Publish_events_to_others]

theorem Publish_exclude_me_witness :
    (7, Message.Event 99 1 ∅ [Value.num 42] ∅) ∈
      (brTwoSubs.Publish sessFive ⟨7, optsNoExclude, "t", [Value.num 42], ∅⟩ 99).2 ∧
    ∀ x ∈ (brTwoSubs.Publish sessFive ⟨7, ∅, "t", [Value.num 42], ∅⟩ 99).2,
      x.2.isEvent = true → x.1 ≠ 7 :=
  have h := Publish_exclude_me brTwoSubs sessFive 7 "t" [Value.num 42] ∅ 99 1 (by decide)
  ⟨h.2.1 optsNoExclude (by decide), h.1 ∅ (Or.inl (by decide))⟩

/-- C7: `Publish` sends the peer of the publisher exactly one `PUBLISHED`, with
the request ID of the `PUBLISH` and the publication ID that every `EVENT` of
this publish carries, when `Options["acknowledge"]` is `true`, and sends no
`PUBLISHED` when it is `false` or absent; the routing state plays no role. -/
theorem Publish_acknowledge (br : defaultBroker) (sess : Session) (r : ID) (T : URI)
    (a : Args) (k : Dict) (pubID : ID) :
    (∀ o : Dict, o.lookup "acknowledge" = some (Value.bool true) →
      (br.Publish sess ⟨r, o, T, a, k⟩ pubID).2.filter (fun x => x.2.isPublished) =
        [(sess.Peer, Message.Published r pubID)]) ∧
    (∀ o : Dict,
      (o.lookup "acknowledge" = none ∨ o.lookup "acknowledge" = some (Value.bool false)) →
      ∀ x ∈ (br.Publish sess ⟨r, o, T, a, k⟩ pubID).2, x.2.isPublished = false) ∧
    (∀ o : Dict, ∀ x ∈ (br.Publish sess ⟨r, o, T, a, k⟩ pubID).2,
      ∀ p s d a2 k2, x.2 = Message.Event p s d a2 k2 → p = pubID) := by
  have hev : ∀ (o : Dict) (x : Sent),
      x ∈ ((br.routes.lookup T).getD ∅).entries.filterMap (fun e =>
        if e.2 ≠ sess.Peer ∨ !excludePublisher ⟨r, o, T, a, k⟩ then
          some (e.2, Message.Event pubID e.1 ∅ a k)
        else none) → ∃ s, x.2 = Message.Event pubID s ∅ a k := by
    intro o x hx
    obtain ⟨e, _, he⟩ := List.mem_filterMap.1 hx
    split at he
    · cases he; exact ⟨e.1, rfl⟩
    · cases he
  refine ⟨?_, ?_, ?_⟩
  · intro o ho
    rw [Publish_snd, List.filter_append, doPub_of_true ⟨r, o, T, a, k⟩ ho]
    have : List.filter (fun x : Sent => x.2.isPublished)
        (((br.routes.lookup T).getD ∅).entries.filterMap (fun e =>
          if e.2 ≠ sess.Peer ∨ !excludePublisher ⟨r, o, T, a, k⟩ then
            some (e.2, Message.Event pubID e.1 ∅ a k)
          else none)) = [] := by
      rw [List.filter_eq_nil_iff]
      intro x hx
      obtain ⟨s, hs⟩ := hev o x hx
      simp [hs, Message.isPublished]
    rw [this]
    simp [Message.isPublished]
  · intro o ho x hx
    rw [Publish_snd, doPub_of_false ⟨r, o, T, a, k⟩ ho, List.mem_append] at hx
    rcases hx with hx | hx
    · obtain ⟨s, hs⟩ := hev o x hx
      simp [hs, Message.isPublished]
    · simp at hx
  · intro o x hx p s d a2 k2 hxe
    rw [Publish_snd, List.mem_append] at hx
    rcases hx with hx | hx
    · obtain ⟨s2, hs⟩ := hev o x hx
      rw [hs] at hxe
      cases hxe
      rfl
    · split at hx
      · rw [List.mem_singleton] at hx
        subst hx
        cases hxe
      · cases hx

theorem Publish_acknowledge_witness :
    (brTwoSubs.Publish sessFive ⟨7, optsAck, "t", [Value.num 42], ∅⟩ 99).2.filter
        (fun x => x.2.isPublished) = [(7, Message.Published 7 99)] :=
  (Publish_acknowledge brTwoSubs sessFive 7 "t" [Value.num 42] ∅ 99).1 optsAck (by decide)

/-! ## Properties of the dealer -/

/-- C8: when `registrations` has an entry for procedure `p`, `Register` sends
the registering peer exactly one message, an `ERROR` with the request ID and the
error URI `wamp.error.procedure_already_exists`, and leaves `procedures`,
`registrations`, `calls` and `invocations` as they were: the callee of `p` is
still the first registrant. -/
theorem Register_existing_procedure (d : defaultDealer) (callee : Sender) (r : ID)
    (o : Dict) (p : URI) (reg first : ID)
    (h : d.registrations.lookup p = some first) :
    (d.Register callee ⟨r, o, p⟩ reg).2 =
      [(callee, Message.Error MessageType.REGISTER r ∅
          "wamp.error.procedure_already_exists")] ∧
    (d.Register callee ⟨r, o, p⟩ reg).1.procedures = d.procedures ∧
    (d.Register callee ⟨r, o, p⟩ reg).1.registrations = d.registrations ∧
    (d.Register callee ⟨r, o, p⟩ reg).1.calls = d.calls ∧
    (d.Register callee ⟨r, o, p⟩ reg).1.invocations = d.invocations ∧
    (d.Register callee ⟨r, o, p⟩ reg).1.registrations.lookup p = some first := by
  simp [defaultDealer.Register, h, WAMP_ERROR_PROCEDURE_ALREADY_EXISTS]

theorem Register_existing_procedure_witness :
    (dOne.Register 8 ⟨2, ∅, "com.ex.add"⟩ 51).2 =
      [(8, Message.Error MessageType.REGISTER 2 ∅ "wamp.error.procedure_already_exists")] ∧
    (dOne.Register 8 ⟨2, ∅, "com.ex.add"⟩ 51).1.procedures.lookup 50 =
      some ⟨7, "com.ex.add"⟩ :=
  have h := Register_existing_procedure dOne 8 2 ∅ "com.ex.add" 51 50 (by decide)
  ⟨h.1, h.2.1 ▸ (by decide)⟩

/-- C9: when `registrations[p] = reg` and `procedures[reg]` has endpoint `C`,
`Call` sends exactly one message, the `INVOCATION` with the drawn invocation ID
`i`, `Registration = reg` and the arguments of the `CALL`, to `C`, and records
`calls[r] = caller` and `invocations[i] = r`; a `YIELD` with `Request = i`
applied to the resulting state sends exactly one message, the `RESULT` with
`Request = r` and the arguments of the `YIELD`, to the caller, and removes the
entry `i` of `invocations` and the entry `r` of `calls` and nothing else. -/
theorem Call_then_Yield (d : defaultDealer) (caller C callee : Sender) (r : ID)
    (o : Dict) (p : URI) (a : Args) (k : Dict) (reg i : ID) (u : URI)
    (o2 : Dict) (a2 : Args) (k2 : Dict)
    (hreg : d.registrations.lookup p = some reg)
    (hproc : d.procedures.lookup reg = some ⟨C, u⟩) :
    (d.Call caller ⟨r, o, p, a, k⟩ i).2 = [(C, Message.Invocation i reg ∅ a k)] ∧
    (d.Call caller ⟨r, o, p, a, k⟩ i).1.calls.lookup r = some caller ∧
    (d.Call caller ⟨r, o, p, a, k⟩ i).1.invocations.lookup i = some r ∧
    ((d.Call caller ⟨r, o, p, a, k⟩ i).1.Yield callee ⟨i, o2, a2, k2⟩).2 =
      [(caller, Message.Result r ∅ a2 k2)] ∧
    (∀ j, ((d.Call caller ⟨r, o, p, a, k⟩ i).1.Yield callee ⟨i, o2, a2, k2⟩).1.invocations.lookup j
      = if j = i then none else (d.Call caller ⟨r, o, p, a, k⟩ i).1.invocations.lookup j) ∧
    (∀ j, ((d.Call caller ⟨r, o, p, a, k⟩ i).1.Yield callee ⟨i, o2, a2, k2⟩).1.calls.lookup j
      = if j = r then none else (d.Call caller ⟨r, o, p, a, k⟩ i).1.calls.lookup j) ∧
    ((d.Call caller ⟨r, o, p, a, k⟩ i).1.Yield callee ⟨i, o2, a2, k2⟩).1.procedures
      = d.procedures ∧
    ((d.Call caller ⟨r, o, p, a, k⟩ i).1.Yield callee ⟨i, o2, a2, k2⟩).1.registrations
      = d.registrations := by
  have hcall : d.Call caller ⟨r, o, p, a, k⟩ i =
      ({ d with calls := d.calls.insert r caller,
                invocations := d.invocations.insert i r },
        [(C, Message.Invocation i reg ∅ a k)]) := by
    simp [defaultDealer.Call, hreg, hproc]
  rw [hcall]
  have hyield : defaultDealer.Yield
      { d with calls := d.calls.insert r caller,
               invocations := d.invocations.insert i r } callee ⟨i, o2, a2, k2⟩ =
      ({ d with calls := (d.calls.insert r caller).erase r,
                invocations := (d.invocations.insert i r).erase i },
        [(caller, Message.Result r ∅ a2 k2)]) := by
    simp [defaultDealer.Yield]
  rw [hyield]
  refine ⟨rfl, by simp, by simp, rfl, ?_, ?_, rfl, rfl⟩
  · intro j
    by_cases hj : j = i
    · subst hj; simp
    · simp only [hj, if_false]
      exact AList.lookup_erase_ne hj
  · intro j
    by_cases hj : j = r
    · subst hj; simp
    · simp only [hj, if_false]
      exact AList.lookup_erase_ne hj

theorem Call_then_Yield_witness :
    (dOne.Call 8 ⟨5, ∅, "com.ex.add", [Value.num 2, Value.num 3], ∅⟩ 60).2 =
      [(7, Message.Invocation 60 50 ∅ [Value.num 2, Value.num 3] ∅)] ∧
    ((dOne.Call 8 ⟨5, ∅, "com.ex.add", [Value.num 2, Value.num 3], ∅⟩ 60).1.Yield 7
        ⟨60, ∅, [Value.num 5], ∅⟩).2 = [(8, Message.Result 5 ∅ [Value.num 5] ∅)] :=
  have h := Call_then_Yield dOne 8 7 7 5 ∅ "com.ex.add" [Value.num 2, Value.num 3] ∅
    50 60 "com.ex.add" ∅ [Value.num 5] ∅ (by decide) (by decide)
  ⟨h.1, h.2.2.2.1⟩

/-- C10: when `registrations` has no entry for procedure `p`, `Call` sends the
caller exactly one message, an `ERROR` with the request ID and the error URI
`wamp.error.no_such_procedure` (so no `INVOCATION` to anyone), and leaves
`procedures`, `registrations`, `calls` and `invocations` as they were. -/
theorem Call_no_such_procedure (d : defaultDealer) (caller : Sender) (r : ID)
    (o : Dict) (p : URI) (a : Args) (k : Dict) (i : ID)
    (h : d.registrations.lookup p = none) :
    (d.Call caller ⟨r, o, p, a, k⟩ i).2 =
      [(caller, Message.Error MessageType.CALL r ∅ "wamp.error.no_such_procedure")] ∧
    (∀ x ∈ (d.Call caller ⟨r, o, p, a, k⟩ i).2, x.2.isInvocation = false) ∧
    (d.Call caller ⟨r, o, p, a, k⟩ i).1.procedures = d.procedures ∧
    (d.Call caller ⟨r, o, p, a, k⟩ i).1.registrations = d.registrations ∧
    (d.Call caller ⟨r, o, p, a, k⟩ i).1.calls = d.calls ∧
    (d.Call caller ⟨r, o, p, a, k⟩ i).1.invocations = d.invocations := by
  simp [defaultDealer.Call, h, WAMP_ERROR_NO_SUCH_PROCEDURE, Message.isInvocation]

theorem Call_no_such_procedure_witness :
    (dOne.Call 8 ⟨8, ∅, "com.ex.missing", [], ∅⟩ 60).2 =
      [(8, Message.Error MessageType.CALL 8 ∅ "wamp.error.no_such_procedure")] :=
  (Call_no_such_procedure dOne 8 8 ∅ "com.ex.missing" [] ∅ 60 (by decide)).1

/-- C11: when the `Request` of a `YIELD` is not a key of `invocations`, `Yield`
sends no message and leaves `procedures`, `registrations`, `calls` and
`invocations` as they were. -/
theorem Yield_unknown_invocation (d : defaultDealer) (callee : Sender) (i : ID)
    (o : Dict) (a : Args) (k : Dict)
    (h : d.invocations.lookup i = none) :
    (d.Yield callee ⟨i, o, a, k⟩).2 = [] ∧
    (d.Yield callee ⟨i, o, a, k⟩).1.procedures = d.procedures ∧
    (d.Yield callee ⟨i, o, a, k⟩).1.registrations = d.registrations ∧
    (d.Yield callee ⟨i, o, a, k⟩).1.calls = d.calls ∧
    (d.Yield callee ⟨i, o, a, k⟩).1.invocations = d.invocations := by
  simp [defaultDealer.Yield, h]

theorem Yield_unknown_invocation_witness :
    (dOne.Yield 7 ⟨60, ∅, [Value.num 5], ∅⟩).2 = [] :=
  (Yield_unknown_invocation dOne 7 60 ∅ [Value.num 5] ∅ (by decide)).1

/-- C12: `Unregister` answers with the `ERROR` carrying
`wamp.error.no_such_registration` exactly when `reg` is not a key of
`procedures`, and then changes nothing; when `procedures[reg]` exists it sends
exactly one message, `UNREGISTERED` with the request ID, removes `procedures[reg]`
and the `registrations` entry of the URI of that procedure, and changes no
other entry. -/
theorem Unregister_spec (d : defaultDealer) (callee : Sender) (r reg : ID) :
    (d.procedures.lookup reg = none →
      (d.Unregister callee ⟨r, reg⟩).2 =
        [(callee, Message.Error MessageType.UNREGISTER r ∅
            "wamp.error.no_such_registration")] ∧
      (d.Unregister callee ⟨r, reg⟩).1 = d) ∧
    (∀ proc, d.procedures.lookup reg = some proc →
      (d.Unregister callee ⟨r, reg⟩).2 = [(callee, Message.Unregistered r)] ∧
      (∀ j, (d.Unregister callee ⟨r, reg⟩).1.procedures.lookup j =
        if j = reg then none else d.procedures.lookup j) ∧
      (∀ u, (d.Unregister callee ⟨r, reg⟩).1.registrations.lookup u =
        if u = proc.Procedure then none else d.registrations.lookup u) ∧
      (d.Unregister callee ⟨r, reg⟩).1.calls = d.calls ∧
      (d.Unregister callee ⟨r, reg⟩).1.invocations = d.invocations) := by
  refine ⟨?_, ?_⟩
  · intro h
    simp [defaultDealer.Unregister, h, WAMP_ERROR_NO_SUCH_REGISTRATION]
  · intro proc h
    have hu : d.Unregister callee ⟨r, reg⟩ =
        ({ d with registrations := d.registrations.erase proc.Procedure,
                  procedures := d.procedures.erase reg },
          [(callee, Message.Unregistered r)]) := by
      simp [defaultDealer.Unregister, h]
    rw [hu]
    refine ⟨rfl, ?_, ?_, rfl, rfl⟩
    · intro j
      by_cases hj : j = reg
      · subst hj; simp
      · simp only [hj, if_false]
        exact AList.lookup_erase_ne hj
    · intro u
      by_cases hu2 : u = proc.Procedure
      · subst hu2; simp
      · simp only [hu2, if_false]
        exact AList.lookup_erase_ne hu2

theorem Unregister_spec_witness :
    (dOne.Unregister 7 ⟨3, 50⟩).2 = [(7, Message.Unregistered 3)] ∧
    (dOne.Unregister 7 ⟨3, 51⟩).2 =
      [(7, Message.Error MessageType.UNREGISTER 3 ∅ "wamp.error.no_such_registration")] :=
  ⟨((Unregister_spec dOne 7 3 50).2 ⟨7, "com.ex.add"⟩ (by decide)).1,
   ((Unregister_spec dOne 7 3 51).1 (by decide)).1⟩

/-- C13, the code at a failing input: `Disconnect` of peer 8, which has
registered nothing, deletes the `registrations` entry of the empty URI that
peer 7 registered (its `procedures` entry stays), and deletes the `procedures`
entry with ID 0 of peer 7 (its `registrations` entry stays). -/
theorem Disconnect_deletes_foreign_entries :
    (dEmptyURI.registrations.lookup "" = some 50 ∧
      dEmptyURI.procedures.lookup 50 = some ⟨7, ""⟩ ∧
      (dEmptyURI.Disconnect 8).registrations.lookup "" = none ∧
      (dEmptyURI.Disconnect 8).procedures.lookup 50 = some ⟨7, ""⟩) ∧
    (dZeroID.procedures.lookup 0 = some ⟨7, "com.ex.add"⟩ ∧
      (dZeroID.Disconnect 8).procedures.lookup 0 = none ∧
      (dZeroID.Disconnect 8).registrations.lookup "com.ex.add" = some 0) := by
  decide

/-! ### The subscription ID generator -/

theorem nextRequestId_arith_spec (n m : Nat) (h : n ≤ 2 ^ 53 - 1)
    (hm : m = if (n + 1) % 2 ^ 64 > 2 ^ 53 - 1 then 1 else (n + 1) % 2 ^ 64) :
    (n < 2 ^ 53 - 1 → m = n + 1) ∧ (n = 2 ^ 53 - 1 → m = 1) ∧
    1 ≤ m ∧ m ≤ 2 ^ 53 - 1 ∧ m ≠ 0 ∧
    (if (m + 1) % 2 ^ 64 > 2 ^ 53 - 1 then 1 else (m + 1) % 2 ^ 64) ≠ m := by
  subst hm
  split_ifs <;> omega

/-- C14: for a broker whose counter is at most `MAX_REQUEST_ID`, which is
`2^53 - 1`, `nextRequestId` returns the counter plus one when the counter is
below `MAX_REQUEST_ID` and 1 when it equals `MAX_REQUEST_ID`, and stores the
returned value as the new counter; the returned ID lies between 1 and
`MAX_REQUEST_ID`, is never 0, and the next call returns a different value. -/
theorem nextRequestId_spec (br : defaultBroker)
    (h : br.lastRequestId ≤ MAX_REQUEST_ID) :
    MAX_REQUEST_ID = 2 ^ 53 - 1 ∧
    (br.lastRequestId < MAX_REQUEST_ID → br.nextRequestId.2 = br.lastRequestId + 1) ∧
    (br.lastRequestId = MAX_REQUEST_ID → br.nextRequestId.2 = 1) ∧
    br.nextRequestId.1.lastRequestId = br.nextRequestId.2 ∧
    1 ≤ br.nextRequestId.2 ∧ br.nextRequestId.2 ≤ MAX_REQUEST_ID ∧
    br.nextRequestId.2 ≠ 0 ∧
    br.nextRequestId.1.nextRequestId.2 ≠ br.nextRequestId.2 := by
  have key := nextRequestId_arith_spec br.lastRequestId br.nextRequestId.2 h rfl
  exact ⟨rfl, key.1, key.2.1, rfl, key.2.2.1, key.2.2.2.1, key.2.2.2.2.1, key.2.2.2.2.2⟩

theorem nextRequestId_spec_witness :
    ({ NewDefaultBroker with lastRequestId := MAX_REQUEST_ID }).nextRequestId.2 = 1 ∧
    NewDefaultBroker.nextRequestId.2 = 1 ∧
    NewDefaultBroker.nextRequestId.1.nextRequestId.2 ≠ NewDefaultBroker.nextRequestId.2 :=
  ⟨(nextRequestId_spec { NewDefaultBroker with lastRequestId := MAX_REQUEST_ID }
      (Nat.le_refl _)).2.2.1 rfl,
   (nextRequestId_spec NewDefaultBroker (by decide)).2.1 (by decide),
   (nextRequestId_spec NewDefaultBroker (by decide)).2.2.2.2.2.2.2⟩

/-! ### `RemoveSession` twice -/

theorem foldl_unsubscribe_none_or_eq (sess : Session) (ids : List ID) :
    ∀ (br : defaultBroker),
      (ids.foldl (fun b id => (b.unsubscribe sess id).1) br).subscribers.lookup sess.ptr
        = none ∨
      ids.foldl (fun b id => (b.unsubscribe sess id).1) br = br := by
  induction ids with
  | nil => intro br; exact Or.inr rfl
  | cons id rest ih =>
    intro br
    rw [List.foldl_cons]
    cases hs : br.subscriptions.lookup id with
    | none =>
      rw [unsubscribe_none br sess id hs]
      exact ih br
    | some t =>
      left
      apply foldl_unsubscribe_subscribers_none
      rw [unsubscribe_subscribers_lookup]
      simp [hs]

/-- C17: for every broker state and every session `S`, a second
`RemoveSession(S)` right after the first leaves the state of the first and
sends no message. -/
theorem RemoveSession_idempotent (br : defaultBroker) (S : Session) :
    ((br.RemoveSession S).1.RemoveSession S).1 = (br.RemoveSession S).1 ∧
    ((br.RemoveSession S).1.RemoveSession S).2 = [] := by
  refine ⟨?_, rfl⟩
  rcases foldl_unsubscribe_none_or_eq S (br.idsOf S) br with h | h
  · have h2 : (br.RemoveSession S).1.subscribers.lookup S.ptr = none := h
    have hids : (br.RemoveSession S).1.idsOf S = [] := by
      simp [defaultBroker.idsOf, h2]
    show List.foldl _ _ ((br.RemoveSession S).1.idsOf S) = _
    rw [hids]
    rfl
  · have h1 : (br.RemoveSession S).1 = br := h
    rw [h1]
    exact h1

/-- C18, the code at a failing input: session 5 holds subscriptions 1 and 2 on
topic `t`; after `Unsubscribe` of subscription 1 the session has no
`subscribers` entry at all, although subscription 2 is still a key of
`subscriptions` and of `routes[t]`, pointing at the peer of the session. -/
theorem Unsubscribe_drops_session_entry :
    brSameSession.subscribers.lookup sessFive.ptr = some [1, 2] ∧
    (brSameSession.Unsubscribe sessFive ⟨3, 1⟩).2 = [(7, Message.Unsubscribed 3)] ∧
    (brSameSession.Unsubscribe sessFive ⟨3, 1⟩).1.subscribers.lookup sessFive.ptr = none ∧
    (brSameSession.Unsubscribe sessFive ⟨3, 1⟩).1.subscriptions.lookup 2 = some "t" ∧
    (brSameSession.Unsubscribe sessFive ⟨3, 1⟩).1.route "t" 2 = some sessFive.Peer := by
  decide

/-! ### No empty bucket -/

theorem Subscribe_bucket_nonempty (br : defaultBroker) (S : Session) (msg : Subscribe)
    (t : URI) (h : ∀ b, br.routes.lookup t = some b → b.entries ≠ []) :
    ∀ b, (br.Subscribe S msg).1.routes.lookup t = some b → b.entries ≠ [] := by
  intro b hb
  rw [Subscribe_routes] at hb
  by_cases ht : t = msg.Topic
  · subst ht
    rw [AList.lookup_insert] at hb
    cases hb
    simp [AList.insert_entries]
  · rw [AList.lookup_insert_ne ht] at hb
    exact h b hb

theorem step_bucket_nonempty (br : defaultBroker) (op : BrokerOp) (t : URI)
    (h : ∀ b, br.routes.lookup t = some b → b.entries ≠ []) :
    ∀ b, (br.step op).1.routes.lookup t = some b → b.entries ≠ [] := by
  cases op with
  | subscribe sess msg => exact Subscribe_bucket_nonempty br sess msg t h
  | unsubscribe sess msg =>
    simp only [defaultBroker.step, Unsubscribe_eq]
    exact unsubscribe_bucket_nonempty br sess msg.Subscription t h
  | removeSession sess =>
    exact foldl_unsubscribe_bucket_nonempty sess (br.idsOf sess) t br h
  | publish sess msg pubID => exact h

theorem run_bucket_nonempty (ops : List BrokerOp) (t : URI) :
    ∀ (br : defaultBroker), (∀ b, br.routes.lookup t = some b → b.entries ≠ []) →
      ∀ b, (br.run ops).1.routes.lookup t = some b → b.entries ≠ [] := by
  induction ops with
  | nil => intro br h; exact h
  | cons op ops ih =>
    intro br h
    exact ih _ (step_bucket_nonempty br op t h)

/-- C19: in the state reached from a fresh broker by any sequence of
`Subscribe`, `Unsubscribe`, `RemoveSession` and `Publish` calls, a topic that is
a key of `routes` has a non-empty bucket. -/
theorem run_no_empty_bucket (ops : List BrokerOp) (t : URI) (b : GoMap ID Sender)
    (h : (NewDefaultBroker.run ops).1.routes.lookup t = some b) : b.entries ≠ [] :=
  run_bucket_nonempty ops t NewDefaultBroker
    (fun b hb => by simp [NewDefaultBroker] at hb) b h

theorem run_no_empty_bucket_witness :
    ((∅ : GoMap ID Sender).insert 2 7).entries ≠ [] :=
  run_no_empty_bucket
    [BrokerOp.subscribe sessFive ⟨1, "t"⟩, BrokerOp.subscribe sessFive ⟨2, "t"⟩,
     BrokerOp.unsubscribe sessSix ⟨3, 1⟩, BrokerOp.publish sessSix ⟨4, ∅, "t", [], ∅⟩ 9]
    "t" ((∅ : GoMap ID Sender).insert 2 7) rfl

/-! ### Repeated `Subscribe` on one topic -/

theorem nextRequestId_snd_of_lt (br : defaultBroker) (k : Nat)
    (hk : br.lastRequestId = k) (h : k < 2 ^ 53 - 1) : br.nextRequestId.2 = k + 1 := by
  subst hk
  exact (nextRequestId_arith_spec br.lastRequestId br.nextRequestId.2
    (Nat.le_of_lt h) rfl).1 h

theorem subscribedIDs_append (o₁ o₂ : List Sent) :
    subscribedIDs (o₁ ++ o₂) = subscribedIDs o₁ ++ subscribedIDs o₂ := by
  simp [subscribedIDs, List.filterMap_append]

theorem run_subscribe_same_topic (t : URI) (reqs : List (Session × ID)) :
    ∀ (br : defaultBroker) (k : Nat), br.lastRequestId = k →
      k + reqs.length ≤ 2 ^ 53 - 1 →
      (∀ key ∈ ((br.routes.lookup t).getD ∅).keys, key ≤ k) →
      subscribedIDs (br.run (reqs.map (fun q => BrokerOp.subscribe q.1 ⟨q.2, t⟩))).2 =
        List.range' (k + 1) reqs.length ∧
      (br.run (reqs.map (fun q => BrokerOp.subscribe q.1 ⟨q.2, t⟩))).2.length =
        reqs.length ∧
      (((br.run (reqs.map (fun q => BrokerOp.subscribe q.1 ⟨q.2, t⟩))).1.routes.lookup
          t).getD ∅).entries.length =
        ((br.routes.lookup t).getD ∅).entries.length + reqs.length := by
  induction reqs with
  | nil => intro br k _ _ _; simp [defaultBroker.run, subscribedIDs]
  | cons q rest ih =>
    intro br k hk hlen hkeys
    simp only [List.length_cons] at hlen
    have hlen2 : k + 1 + rest.length ≤ 2 ^ 53 - 1 := by omega
    have hid : br.nextRequestId.2 = k + 1 := nextRequestId_snd_of_lt br k hk (by omega)
    have hlast : (br.Subscribe q.1 ⟨q.2, t⟩).1.lastRequestId = k + 1 := by
      rw [Subscribe_lastRequestId, hid]
    have hbucket : ((br.Subscribe q.1 ⟨q.2, t⟩).1.routes.lookup t).getD ∅ =
        ((br.routes.lookup t).getD ∅).insert (k + 1) q.1.Peer := by
      rw [Subscribe_routes, hid]
      simp
    have hfresh : (k + 1) ∉ ((br.routes.lookup t).getD ∅) := by
      rw [AList.mem_keys]
      intro hmem
      exact absurd (hkeys _ hmem) (Nat.not_succ_le_self k)
    have hkeys2 : ∀ key ∈ (((br.Subscribe q.1 ⟨q.2, t⟩).1.routes.lookup t).getD ∅).keys,
        key ≤ k + 1 := by
      intro key hkey
      rw [hbucket, AList.keys_insert] at hkey
      rcases List.mem_cons.1 hkey with h1 | h1
      · exact h1 ▸ Nat.le_refl _
      · exact Nat.le_succ_of_le (hkeys key (List.mem_of_mem_erase h1))
    obtain ⟨ih1, ih2, ih3⟩ := ih (br.Subscribe q.1 ⟨q.2, t⟩).1 (k + 1) hlast hlen2 hkeys2
    simp only [List.map_cons, defaultBroker.run, defaultBroker.step, List.length_cons]
    refine ⟨?_, ?_, ?_⟩
    · rw [subscribedIDs_append, ih1, Subscribe_snd, hid]
      simp [subscribedIDs, List.range'_succ]
    · rw [List.length_append, ih2, Subscribe_snd]
      simp [Nat.add_comm]
    · rw [ih3, hbucket, AList.insert_entries_of_neg hfresh]
      simp only [List.length_cons]
      omega

/-- C15: starting from a fresh broker, `n` calls of `Subscribe` on one topic,
with `n` at most `MAX_REQUEST_ID` and the sessions and request IDs arbitrary,
send `n` messages, all `SUBSCRIBED`, whose subscription IDs are pairwise
distinct, and leave `routes[topic]` with exactly `n` entries. -/
theorem Subscribe_many_distinct (t : URI) (reqs : List (Session × ID))
    (h : reqs.length ≤ MAX_REQUEST_ID) :
    (NewDefaultBroker.run (reqs.map (fun q => BrokerOp.subscribe q.1 ⟨q.2, t⟩))).2.length =
      reqs.length ∧
    (subscribedIDs
      (NewDefaultBroker.run (reqs.map (fun q => BrokerOp.subscribe q.1 ⟨q.2, t⟩))).2).length =
      reqs.length ∧
    (subscribedIDs
      (NewDefaultBroker.run (reqs.map (fun q => BrokerOp.subscribe q.1 ⟨q.2, t⟩))).2).Nodup ∧
    (((NewDefaultBroker.run (reqs.map (fun q => BrokerOp.subscribe q.1 ⟨q.2, t⟩))).1.routes.lookup
        t).getD ∅).entries.length = reqs.length := by
  have hlen : 0 + reqs.length ≤ 2 ^ 53 - 1 := by
    rw [Nat.zero_add]; exact h
  obtain ⟨h1, h2, h3⟩ := run_subscribe_same_topic t reqs NewDefaultBroker 0 rfl hlen
    (by intro key hkey; simp [NewDefaultBroker] at hkey)
  refine ⟨h2, ?_, ?_, ?_⟩
  · rw [h1, List.length_range']
  · rw [h1]
    exact List.nodup_range' _ _
  · rw [h3]
    simp [NewDefaultBroker]

theorem Subscribe_many_distinct_witness :
    (subscribedIDs (NewDefaultBroker.run
      ([(sessFive, 1), (sessSix, 1), (sessFive, 2)].map
        (fun q => BrokerOp.subscribe q.1 ⟨q.2, "t"⟩))).2).Nodup :=
  (Subscribe_many_distinct "t" [(sessFive, 1), (sessSix, 1), (sessFive, 2)]
    (by decide)).2.2.1

/-! ### Invocations and their calls -/

theorem Register_calls_invocations (d : defaultDealer) (callee : Sender) (msg : Register)
    (reg : ID) :
    (d.Register callee msg reg).1.calls = d.calls ∧
    (d.Register callee msg reg).1.invocations = d.invocations := by
  cases h : d.registrations.lookup msg.Procedure <;> simp [defaultDealer.Register, h]

theorem Unregister_calls_invocations (d : defaultDealer) (callee : Sender)
    (msg : Unregister) :
    (d.Unregister callee msg).1.calls = d.calls ∧
    (d.Unregister callee msg).1.invocations = d.invocations := by
  cases h : d.procedures.lookup msg.Registration <;> simp [defaultDealer.Unregister, h]

theorem foldl_erase_registrations_calls (l : List RemoteProcedure) :
    ∀ d : defaultDealer,
      (l.foldl (fun d p => { d with registrations := d.registrations.erase p.Procedure })
        d).calls = d.calls ∧
      (l.foldl (fun d p => { d with registrations := d.registrations.erase p.Procedure })
        d).invocations = d.invocations := by
  induction l with
  | nil => intro d; exact ⟨rfl, rfl⟩
  | cons p l ih => intro d; rw [List.foldl_cons]; exact ih _

theorem foldl_erase_procedures_calls (l : List ID) :
    ∀ d : defaultDealer,
      (l.foldl (fun d r => { d with procedures := d.procedures.erase r }) d).calls
        = d.calls ∧
      (l.foldl (fun d r => { d with procedures := d.procedures.erase r }) d).invocations
        = d.invocations := by
  induction l with
  | nil => intro d; exact ⟨rfl, rfl⟩
  | cons p l ih => intro d; rw [List.foldl_cons]; exact ih _

theorem Disconnect_calls_invocations (d : defaultDealer) (callee : Sender) :
    (d.Disconnect callee).calls = d.calls ∧
    (d.Disconnect callee).invocations = d.invocations := by
  unfold defaultDealer.Disconnect
  simp only
  constructor
  · rw [(foldl_erase_procedures_calls _ _).1, (foldl_erase_registrations_calls _ _).1]
  · rw [(foldl_erase_procedures_calls _ _).2, (foldl_erase_registrations_calls _ _).2]

theorem Call_calls_invocations (d : defaultDealer) (caller : Sender) (msg : Call)
    (i : ID) :
    ((d.Call caller msg i).1.calls = d.calls ∧
      (d.Call caller msg i).1.invocations = d.invocations) ∨
    ((d.Call caller msg i).1.calls = d.calls.insert msg.Request caller ∧
      (d.Call caller msg i).1.invocations = d.invocations.insert i msg.Request) := by
  cases h : d.registrations.lookup msg.Procedure with
  | none => left; simp [defaultDealer.Call, h]
  | some reg =>
    cases h2 : d.procedures.lookup reg with
    | none => left; simp [defaultDealer.Call, h, h2]
    | some rproc => right; simp [defaultDealer.Call, h, h2]

theorem Yield_calls_invocations (d : defaultDealer) (callee : Sender) (msg : Yield) :
    ((d.Yield callee msg).1.calls = d.calls ∧
      (d.Yield callee msg).1.invocations = d.invocations) ∨
    (∃ c, d.invocations.lookup msg.Request = some c ∧
      (d.Yield callee msg).1.calls = d.calls.erase c ∧
      (d.Yield callee msg).1.invocations = d.invocations.erase msg.Request) := by
  cases h : d.invocations.lookup msg.Request with
  | none => left; simp [defaultDealer.Yield, h]
  | some c =>
    right
    refine ⟨c, rfl, ?_⟩
    cases h2 : d.calls.lookup c with
    | none =>
      simp only [defaultDealer.Yield, h, h2, and_true]
      apply AList.ext
      rw [AList.lookup_eq_none, AList.mem_keys] at h2
      simp only [AList.erase]
      rw [List.kerase_of_not_mem_keys]
      exact h2
    | some caller => simp [defaultDealer.Yield, h, h2]

theorem step_invocations_inv (d : defaultDealer) (op : DealerOp)
    (hI : ∀ j c, d.invocations.lookup j = some c → d.calls.lookup c ≠ none)
    (hJ : ∀ j j2 c, d.invocations.lookup j = some c → d.invocations.lookup j2 = some c →
      j = j2)
    (hadm : d.admits op = true) :
    (∀ j c, (d.step op).1.invocations.lookup j = some c →
      (d.step op).1.calls.lookup c ≠ none) ∧
    (∀ j j2 c, (d.step op).1.invocations.lookup j = some c →
      (d.step op).1.invocations.lookup j2 = some c → j = j2) := by
  cases op with
  | register callee msg reg =>
    simp only [defaultDealer.step, (Register_calls_invocations d callee msg reg).1,
      (Register_calls_invocations d callee msg reg).2]
    exact ⟨hI, hJ⟩
  | unregister callee msg =>
    simp only [defaultDealer.step, (Unregister_calls_invocations d callee msg).1,
      (Unregister_calls_invocations d callee msg).2]
    exact ⟨hI, hJ⟩
  | disconnect callee =>
    simp only [defaultDealer.step, (Disconnect_calls_invocations d callee).1,
      (Disconnect_calls_invocations d callee).2]
    exact ⟨hI, hJ⟩
  | call caller msg i =>
    have hfree : d.calls.lookup msg.Request = none := by
      simpa [defaultDealer.admits] using hadm
    simp only [defaultDealer.step]
    rcases Call_calls_invocations d caller msg i with ⟨h1, h2⟩ | ⟨h1, h2⟩
    · rw [h1, h2]; exact ⟨hI, hJ⟩
    · rw [h1, h2]
      have hold : ∀ j c, j ≠ i → (d.invocations.insert i msg.Request).lookup j = some c →
          d.invocations.lookup j = some c ∧ c ≠ msg.Request := by
        intro j c hj h
        rw [AList.lookup_insert_ne hj] at h
        refine ⟨h, ?_⟩
        intro hc
        subst hc
        exact hI j _ h hfree
      have hnew : ∀ c, (d.invocations.insert i msg.Request).lookup i = some c →
          c = msg.Request := by
        intro c h
        rw [AList.lookup_insert] at h
        cases h
        rfl
      constructor
      · intro j c h
        by_cases hj : j = i
        · subst hj
          rw [hnew c h, AList.lookup_insert]
          simp
        · obtain ⟨h3, h4⟩ := hold j c hj h
          rw [AList.lookup_insert_ne h4]
          exact hI j c h3
      · intro j j2 c h h'
        by_cases hj : j = i
        · by_cases hj2 : j2 = i
          · rw [hj, hj2]
          · subst hj
            exact absurd (hnew c h) (hold j2 c hj2 h').2
        · by_cases hj2 : j2 = i
          · subst hj2
            exact absurd (hnew c h') (hold j c hj h).2
          · exact hJ j j2 c (hold j c hj h).1 (hold j2 c hj2 h').1
  | yield callee msg =>
    simp only [defaultDealer.step]
    rcases Yield_calls_invocations d callee msg with ⟨h1, h2⟩ | ⟨c0, h0, h1, h2⟩
    · rw [h1, h2]; exact ⟨hI, hJ⟩
    · rw [h1, h2]
      have hold : ∀ j c, (d.invocations.erase msg.Request).lookup j = some c →
          j ≠ msg.Request ∧ d.invocations.lookup j = some c := by
        intro j c h
        by_cases hj : j = msg.Request
        · subst hj
          rw [AList.lookup_erase] at h
          cases h
        · rw [AList.lookup_erase_ne hj] at h
          exact ⟨hj, h⟩
      constructor
      · intro j c h
        obtain ⟨hj, h3⟩ := hold j c h
        have hc : c ≠ c0 := by
          intro hc
          subst hc
          exact hj (hJ j msg.Request c h3 h0)
        rw [AList.lookup_erase_ne hc]
        exact hI j c h3
      · intro j j2 c h h'
        exact hJ j j2 c (hold j c h).2 (hold j2 c h').2

theorem run_invocations_inv (ops : List DealerOp) :
    ∀ d : defaultDealer,
      (∀ j c, d.invocations.lookup j = some c → d.calls.lookup c ≠ none) →
      (∀ j j2 c, d.invocations.lookup j = some c → d.invocations.lookup j2 = some c →
        j = j2) →
      d.admitsAll ops = true →
      (∀ j c, (d.run ops).invocations.lookup j = some c →
        (d.run ops).calls.lookup c ≠ none) := by
  induction ops with
  | nil => intro d hI _ _; exact hI
  | cons op ops ih =>
    intro d hI hJ hadm
    simp only [defaultDealer.admitsAll, Bool.and_eq_true] at hadm
    obtain ⟨h1, h2⟩ := step_invocations_inv d op hI hJ hadm.1
    exact ih _ h1 h2 hadm.2

/-- C20, as amended: in every dealer state reached from an empty dealer by a
sequence of `Register`, `Unregister`, `Disconnect`, `Call` and `Yield` calls,
from any peers, in which no `Call` carries a `Request` that is a key of `calls`
at that moment, every call ID stored as a value of `invocations` is a key of
`calls`; in particular no `Yield` of such a sequence leaves an `invocations`
entry whose `calls` entry is gone. -/
theorem run_invocations_have_calls (ops : List DealerOp)
    (hadm : NewDefaultDealer.admitsAll ops = true) (j c : ID)
    (h : (NewDefaultDealer.run ops).invocations.lookup j = some c) :
    (NewDefaultDealer.run ops).calls.lookup c ≠ none :=
  run_invocations_inv ops NewDefaultDealer
    (fun j c hj => by simp [NewDefaultDealer] at hj)
    (fun j j2 c hj => by simp [NewDefaultDealer] at hj) hadm j c h

theorem run_invocations_have_calls_witness :
    (NewDefaultDealer.run opsDistinctRequests).invocations.lookup 61 = some 6 ∧
    (NewDefaultDealer.run opsDistinctRequests).calls.lookup 6 ≠ none :=
  ⟨by decide, run_invocations_have_calls opsDistinctRequests (by decide) 61 6 (by decide)⟩

/-- C20, the claim as stated fails: caller 8 issues two calls with request ID 5
and the callee answers the first; the invocation 61 of the second call is still
in `invocations`, with call ID 5, and `calls` has no entry 5 any more. -/
theorem run_invocations_counterexample :
    (NewDefaultDealer.run opsReusedRequest).invocations.lookup 61 = some 5 ∧
    (NewDefaultDealer.run opsReusedRequest).calls.lookup 5 = none := by
  decide

/-! ### The three indices after every session is removed -/

theorem eq_empty_of_lookup_none {K V : Type} [DecidableEq K] (m : GoMap K V)
    (h : ∀ k, m.lookup k = none) : m = ∅ := by
  apply AList.ext
  cases he : m.entries with
  | nil => rfl
  | cons e rest =>
    exfalso
    have hmem : e.1 ∈ m.keys := by simp [AList.keys, List.keys, he]
    have := h e.1
    rw [AList.lookup_eq_none, AList.mem_keys] at this
    exact this hmem

theorem mem_idsOf (br : defaultBroker) (S : Session) (k : ID) :
    k ∈ br.idsOf S ↔ ∃ ids, br.subscribers.lookup S.ptr = some ids ∧ k ∈ ids := by
  unfold defaultBroker.idsOf
  cases h : br.subscribers.lookup S.ptr <;> simp

theorem Subscribe_subscriptions_lookup (br : defaultBroker) (S : Session) (msg : Subscribe)
    (k : ID) :
    (br.Subscribe S msg).1.subscriptions.lookup k =
      if k = br.nextRequestId.2 then some msg.Topic else br.subscriptions.lookup k := by
  rw [Subscribe_subscriptions]
  by_cases hk : k = br.nextRequestId.2
  · rw [if_pos hk, hk, AList.lookup_insert]
  · rw [if_neg hk, AList.lookup_insert_ne hk]

theorem Subscribe_subscribers_lookup (br : defaultBroker) (S : Session) (msg : Subscribe)
    (p : Nat) :
    (br.Subscribe S msg).1.subscribers.lookup p =
      if p = S.ptr then some (br.idsOf S ++ [br.nextRequestId.2])
      else br.subscribers.lookup p := by
  rw [Subscribe_subscribers]
  by_cases hp : p = S.ptr
  · rw [if_pos hp, hp, AList.lookup_insert]
  · rw [if_neg hp, AList.lookup_insert_ne hp]

theorem Subscribe_route (br : defaultBroker) (S : Session) (msg : Subscribe)
    (t : URI) (k : ID) :
    (br.Subscribe S msg).1.route t k =
      if t = msg.Topic ∧ k = br.nextRequestId.2 then some S.Peer else br.route t k := by
  unfold defaultBroker.route
  rw [Subscribe_routes]
  by_cases ht : t = msg.Topic
  · subst ht
    rw [AList.lookup_insert]
    simp only [Option.some_bind, true_and]
    by_cases hk : k = br.nextRequestId.2
    · rw [if_pos hk, hk, AList.lookup_insert]
    · rw [if_neg hk, AList.lookup_insert_ne hk]
      cases hb : br.routes.lookup msg.Topic <;> simp
  · rw [AList.lookup_insert_ne ht]
    simp [ht]

theorem Subscribe_consistent (br : defaultBroker) (S : Session) (msg : Subscribe)
    (hfresh : br.subscriptions.lookup br.nextRequestId.2 = none) (h : br.Consistent) :
    (br.Subscribe S msg).1.Consistent := by
  have hnr : ∀ t, br.route t br.nextRequestId.2 = none := by
    intro t
    by_contra hc
    have := h.routed t _ hc
    rw [hfresh] at this
    cases this
  have hnl : ∀ p ids, br.subscribers.lookup p = some ids → br.nextRequestId.2 ∉ ids :=
    fun p ids hp hmem => (h.live p ids hp).2 _ hmem hfresh
  have hkeep : ∀ k, br.subscriptions.lookup k ≠ none →
      (br.Subscribe S msg).1.subscriptions.lookup k ≠ none := by
    intro k hk
    rw [Subscribe_subscriptions_lookup]
    split
    · simp
    · exact hk
  have hself : (br.Subscribe S msg).1.subscribers.lookup S.ptr =
      some (br.idsOf S ++ [br.nextRequestId.2]) := by
    rw [Subscribe_subscribers_lookup, if_pos rfl]
  constructor
  · intro t k hr
    rw [Subscribe_route] at hr
    rw [Subscribe_subscriptions_lookup]
    by_cases hc : t = msg.Topic ∧ k = br.nextRequestId.2
    · rw [if_pos hc.2, hc.1]
    · rw [if_neg hc] at hr
      have hk : k ≠ br.nextRequestId.2 := by
        intro e
        apply hr
        rw [e]
        exact hnr t
      rw [if_neg hk]
      exact h.routed t k hr
  · intro k t hs
    rw [Subscribe_subscriptions_lookup] at hs
    by_cases hk : k = br.nextRequestId.2
    · exact ⟨S.ptr, _, hself, by rw [hk]; simp⟩
    · rw [if_neg hk] at hs
      obtain ⟨p, ids, hp, hmem⟩ := h.listed k t hs
      by_cases hps : p = S.ptr
      · refine ⟨S.ptr, _, hself, List.mem_append_left _ ?_⟩
        rw [mem_idsOf]
        exact ⟨ids, hps ▸ hp, hmem⟩
      · refine ⟨p, ids, ?_, hmem⟩
        rw [Subscribe_subscribers_lookup, if_neg hps]
        exact hp
  · intro p ids hp
    rw [Subscribe_subscribers_lookup] at hp
    by_cases hps : p = S.ptr
    · rw [if_pos hps] at hp
      cases hp
      refine ⟨by simp, ?_⟩
      intro k hk
      rcases List.mem_append.1 hk with h1 | h1
      · obtain ⟨ids0, h0, hm⟩ := (mem_idsOf br S k).1 h1
        exact hkeep k ((h.live _ _ h0).2 k hm)
      · rw [List.mem_singleton] at h1
        rw [h1, Subscribe_subscriptions_lookup, if_pos rfl]
        simp
    · rw [if_neg hps] at hp
      exact ⟨(h.live p ids hp).1, fun k hk => hkeep k ((h.live p ids hp).2 k hk)⟩
  · intro p p2 a b k hp hp2 hka hkb
    rw [Subscribe_subscribers_lookup] at hp hp2
    have hcross : ∀ (q : Nat) (c : List ID), q ≠ S.ptr →
        br.subscribers.lookup q = some c → k ∈ c →
        k ∈ br.idsOf S ++ [br.nextRequestId.2] → False := by
      intro q c hq hc hkc hk
      rcases List.mem_append.1 hk with h3 | h3
      · obtain ⟨ids0, h0, hm⟩ := (mem_idsOf br S k).1 h3
        exact hq (h.owner _ _ _ _ k hc h0 hkc hm)
      · rw [List.mem_singleton] at h3
        subst h3
        exact hnl q c hc hkc
    by_cases h1 : p = S.ptr <;> by_cases h2 : p2 = S.ptr
    · rw [h1, h2]
    · rw [if_pos h1] at hp
      rw [if_neg h2] at hp2
      cases hp
      exact absurd (hcross p2 b h2 hp2 hkb hka) id
    · rw [if_neg h1] at hp
      rw [if_pos h2] at hp2
      cases hp2
      exact absurd (hcross p a h1 hp hka hkb) id
    · rw [if_neg h1] at hp
      rw [if_neg h2] at hp2
      exact h.owner p p2 a b k hp hp2 hka hkb
  · intro t
    exact Subscribe_bucket_nonempty br S msg t (h.buckets t)

theorem RemoveSession_subscriptions_lookup (br : defaultBroker) (S : Session) (k : ID) :
    (br.RemoveSession S).1.subscriptions.lookup k =
      if k ∈ br.idsOf S then none else br.subscriptions.lookup k :=
  foldl_unsubscribe_subscriptions_lookup S (br.idsOf S) br k

theorem RemoveSession_route (br : defaultBroker) (S : Session) (h : br.Consistent)
    (t : URI) (k : ID) :
    (br.RemoveSession S).1.route t k = if k ∈ br.idsOf S then none else br.route t k := by
  by_cases hk : k ∈ br.idsOf S
  · rw [if_pos hk]
    exact foldl_unsubscribe_route_mem S (br.idsOf S) br k hk (fun t2 => h.routed t2 k) t
  · rw [if_neg hk]
    exact foldl_unsubscribe_route_not_mem S (br.idsOf S) br t k hk

theorem RemoveSession_subscribers_lookup (br : defaultBroker) (S : Session)
    (h : br.Consistent) (p : Nat) :
    (br.RemoveSession S).1.subscribers.lookup p =
      if p = S.ptr then none else br.subscribers.lookup p := by
  by_cases hp : p = S.ptr
  · rw [if_pos hp, hp]
    simp only [defaultBroker.RemoveSession]
    cases hs : br.subscribers.lookup S.ptr with
    | none => exact foldl_unsubscribe_subscribers_none S _ br hs
    | some ids =>
      cases ids with
      | nil => exact absurd rfl (h.live _ _ hs).1
      | cons id rest =>
        have hids : br.idsOf S = id :: rest := by simp [defaultBroker.idsOf, hs]
        rw [hids, List.foldl_cons]
        apply foldl_unsubscribe_subscribers_none
        rw [unsubscribe_subscribers_lookup]
        have hl := (h.live _ _ hs).2 id (List.mem_cons_self _ _)
        cases hsub : br.subscriptions.lookup id with
        | none => exact absurd hsub hl
        | some t => simp
  · rw [if_neg hp]
    exact foldl_unsubscribe_subscribers_ne S _ br p hp

theorem RemoveSession_consistent (br : defaultBroker) (S : Session) (h : br.Consistent) :
    (br.RemoveSession S).1.Consistent := by
  have hsub : ∀ p ids, (br.RemoveSession S).1.subscribers.lookup p = some ids →
      p ≠ S.ptr ∧ br.subscribers.lookup p = some ids := by
    intro p ids hp
    rw [RemoveSession_subscribers_lookup br S h] at hp
    by_cases hps : p = S.ptr
    · rw [if_pos hps] at hp
      cases hp
    · rw [if_neg hps] at hp
      exact ⟨hps, hp⟩
  constructor
  · intro t k hr
    rw [RemoveSession_route br S h] at hr
    rw [RemoveSession_subscriptions_lookup]
    by_cases hk : k ∈ br.idsOf S
    · rw [if_pos hk] at hr
      exact absurd rfl hr
    · rw [if_neg hk] at hr ⊢
      exact h.routed t k hr
  · intro k t hs
    rw [RemoveSession_subscriptions_lookup] at hs
    by_cases hk : k ∈ br.idsOf S
    · rw [if_pos hk] at hs
      cases hs
    · rw [if_neg hk] at hs
      obtain ⟨p, ids, hp, hmem⟩ := h.listed k t hs
      have hps : p ≠ S.ptr := by
        intro e
        apply hk
        rw [mem_idsOf]
        exact ⟨ids, e ▸ hp, hmem⟩
      refine ⟨p, ids, ?_, hmem⟩
      rw [RemoveSession_subscribers_lookup br S h, if_neg hps]
      exact hp
  · intro p ids hp
    obtain ⟨hps, hp0⟩ := hsub p ids hp
    refine ⟨(h.live p ids hp0).1, ?_⟩
    intro k hk
    rw [RemoveSession_subscriptions_lookup]
    have hnot : k ∉ br.idsOf S := by
      intro hmem
      obtain ⟨ids0, h0, hm⟩ := (mem_idsOf br S k).1 hmem
      exact hps (h.owner _ _ _ _ k hp0 h0 hk hm)
    rw [if_neg hnot]
    exact (h.live p ids hp0).2 k hk
  · intro p p2 a b k hp hp2 hka hkb
    exact h.owner p p2 a b k (hsub p a hp).2 (hsub p2 b hp2).2 hka hkb
  · intro t
    exact foldl_unsubscribe_bucket_nonempty S (br.idsOf S) t br (h.buckets t)

theorem Unsubscribe_only_listed (br : defaultBroker) (sess : Session) (msg : Unsubscribe)
    (h : br.subscribers.lookup sess.ptr = some [msg.Subscription]) :
    (br.Unsubscribe sess msg).1 = (br.RemoveSession sess).1 := by
  rw [Unsubscribe_eq]
  simp [defaultBroker.RemoveSession, defaultBroker.idsOf, h]

theorem step_consistent (br : defaultBroker) (op : BrokerOp) (h : br.Consistent)
    (hadm : br.admits op = true) : (br.step op).1.Consistent := by
  cases op with
  | subscribe sess msg =>
    have hfresh : br.subscriptions.lookup br.nextRequestId.2 = none := by
      simpa [defaultBroker.admits] using hadm
    exact Subscribe_consistent br sess msg hfresh h
  | unsubscribe sess msg =>
    simp only [defaultBroker.admits, Bool.or_eq_true, Option.isNone_iff_eq_none,
      beq_iff_eq] at hadm
    simp only [defaultBroker.step]
    rcases hadm with h1 | h1
    · rw [Unsubscribe_eq, unsubscribe_none br sess _ h1]
      exact h
    · rw [Unsubscribe_only_listed br sess msg h1]
      exact RemoveSession_consistent br sess h
  | removeSession sess => exact RemoveSession_consistent br sess h
  | publish sess msg pubID => exact h

theorem run_consistent (ops : List BrokerOp) :
    ∀ br : defaultBroker, br.Consistent → br.admitsAll ops = true →
      (br.run ops).1.Consistent := by
  induction ops with
  | nil => intro br h _; exact h
  | cons op ops ih =>
    intro br h hadm
    simp only [defaultBroker.admitsAll, Bool.and_eq_true] at hadm
    exact ih _ (step_consistent br op h hadm.1) hadm.2

theorem step_subscribers_source (br : defaultBroker) (op : BrokerOp) (p : Nat)
    (h : (br.step op).1.subscribers.lookup p ≠ none) :
    br.subscribers.lookup p ≠ none ∨ op.session.ptr = p := by
  by_cases hp : op.session.ptr = p
  · exact Or.inr hp
  · left
    cases op with
    | subscribe sess msg =>
      have hp2 : p ≠ sess.ptr := fun e => hp e.symm
      simp only [defaultBroker.step] at h
      rw [Subscribe_subscribers_lookup, if_neg hp2] at h
      exact h
    | unsubscribe sess msg =>
      have hp2 : p ≠ sess.ptr := fun e => hp e.symm
      simp only [defaultBroker.step, Unsubscribe_eq] at h
      rw [unsubscribe_subscribers_lookup] at h
      have hne : ¬(p = sess.ptr ∧ (br.subscriptions.lookup msg.Subscription).isSome = true) :=
        fun e => hp2 e.1
      rw [if_neg hne] at h
      exact h
    | removeSession sess =>
      have hp2 : p ≠ sess.ptr := fun e => hp e.symm
      simp only [defaultBroker.step, defaultBroker.RemoveSession] at h
      rw [foldl_unsubscribe_subscribers_ne sess _ br p hp2] at h
      exact h
    | publish sess msg pubID => exact h

theorem run_subscribers_source (ops : List BrokerOp) (p : Nat) :
    ∀ br : defaultBroker, (br.run ops).1.subscribers.lookup p ≠ none →
      br.subscribers.lookup p ≠ none ∨ ∃ op ∈ ops, op.session.ptr = p := by
  induction ops with
  | nil => intro br h; exact Or.inl h
  | cons op ops ih =>
    intro br h
    rcases ih _ h with h1 | ⟨op2, hmem, hop⟩
    · rcases step_subscribers_source br op p h1 with h2 | h2
      · exact Or.inl h2
      · exact Or.inr ⟨op, List.mem_cons_self _ _, h2⟩
    · exact Or.inr ⟨op2, List.mem_cons_of_mem _ hmem, hop⟩

theorem run_append_fst (ops₁ ops₂ : List BrokerOp) :
    ∀ br : defaultBroker, (br.run (ops₁ ++ ops₂)).1 = ((br.run ops₁).1.run ops₂).1 := by
  induction ops₁ with
  | nil => intro br; rfl
  | cons op ops ih => intro br; exact ih _

theorem run_removeSessions (closing : List Session) :
    ∀ br : defaultBroker, br.Consistent →
      (br.run (closing.map BrokerOp.removeSession)).1.Consistent ∧
      ∀ p, (br.run (closing.map BrokerOp.removeSession)).1.subscribers.lookup p ≠ none →
        br.subscribers.lookup p ≠ none ∧ ∀ s ∈ closing, s.ptr ≠ p := by
  induction closing with
  | nil =>
    intro br h
    exact ⟨h, fun p hp => ⟨hp, fun s hs => by cases hs⟩⟩
  | cons s rest ih =>
    intro br h
    obtain ⟨h1, h2⟩ := ih (br.RemoveSession s).1 (RemoveSession_consistent br s h)
    refine ⟨h1, ?_⟩
    intro p hp
    obtain ⟨h3, h4⟩ := h2 p hp
    rw [RemoveSession_subscribers_lookup br s h] at h3
    by_cases hps : p = s.ptr
    · rw [if_pos hps] at h3
      exact absurd rfl h3
    · rw [if_neg hps] at h3
      refine ⟨h3, ?_⟩
      intro s2 hs2
      rcases List.mem_cons.1 hs2 with e | e
      · rw [e]; exact fun e2 => hps e2.symm
      · exact h4 s2 e

theorem NewDefaultBroker_consistent : NewDefaultBroker.Consistent := by
  constructor
  · intro t id h
    simp [defaultBroker.route, NewDefaultBroker] at h
  · intro id t h
    simp [NewDefaultBroker] at h
  · intro p ids h
    simp [NewDefaultBroker] at h
  · intro p p2 ids ids2 id h
    simp [NewDefaultBroker] at h
  · intro t b h
    simp [NewDefaultBroker] at h

theorem consistent_empty_of_no_subscribers (br : defaultBroker) (h : br.Consistent)
    (hs : ∀ p, br.subscribers.lookup p = none) :
    br.routes = ∅ ∧ br.subscriptions = ∅ ∧ br.subscribers = ∅ := by
  have hsub : ∀ k, br.subscriptions.lookup k = none := by
    intro k
    cases hk : br.subscriptions.lookup k with
    | none => rfl
    | some t =>
      obtain ⟨p, ids, hp, _⟩ := h.listed k t hk
      rw [hs p] at hp
      cases hp
  refine ⟨eq_empty_of_lookup_none _ ?_, eq_empty_of_lookup_none _ hsub,
    eq_empty_of_lookup_none _ hs⟩
  intro t
  cases hb : br.routes.lookup t with
  | none => rfl
  | some b =>
    exfalso
    obtain ⟨k, hk⟩ := exists_key_of_entries_ne_nil b (h.buckets t b hb)
    have hr : br.route t k ≠ none := by
      rw [Ne, route_eq_none_iff]
      exact fun hall => hall b hb hk
    have := h.routed t k hr
    rw [hsub k] at this
    cases this

/-- C16, as amended: take a finite sequence of `Subscribe`, `Unsubscribe`,
`RemoveSession` (and `Publish`) calls applied to a fresh broker, in which every
`Subscribe` draws an ID that is not a key of `subscriptions` at that moment and
every `Unsubscribe` names either an ID that is not a key of `subscriptions` or
the one ID listed for the calling session; if the sequence ends with a
`RemoveSession` for every session that appears in it, then `routes`,
`subscriptions` and `subscribers` are all empty. -/
theorem run_closed_sessions_empty (body : List BrokerOp) (closing : List Session)
    (hadm : NewDefaultBroker.admitsAll body = true)
    (hcover : ∀ op ∈ body, ∃ s ∈ closing, s.ptr = op.session.ptr) :
    (NewDefaultBroker.run (body ++ closing.map BrokerOp.removeSession)).1.routes = ∅ ∧
    (NewDefaultBroker.run (body ++ closing.map BrokerOp.removeSession)).1.subscriptions = ∅ ∧
    (NewDefaultBroker.run (body ++ closing.map BrokerOp.removeSession)).1.subscribers = ∅ := by
  rw [run_append_fst]
  have hbody := run_consistent body NewDefaultBroker NewDefaultBroker_consistent hadm
  obtain ⟨hfinal, hsrc⟩ := run_removeSessions closing _ hbody
  apply consistent_empty_of_no_subscribers _ hfinal
  intro p
  by_contra hp
  obtain ⟨h1, h2⟩ := hsrc p hp
  rcases run_subscribers_source body p NewDefaultBroker h1 with h3 | ⟨op, hop, hptr⟩
  · simp [NewDefaultBroker] at h3
  · obtain ⟨s, hs, hsp⟩ := hcover op hop
    exact h2 s hs (hsp.trans hptr)

theorem run_closed_sessions_empty_witness :
    (NewDefaultBroker.run
      (opsOwnUnsubscribe ++ [sessFive, sessSix].map BrokerOp.removeSession)).1.routes = ∅ :=
  (run_closed_sessions_empty opsOwnUnsubscribe [sessFive, sessSix] (by decide)
    (by decide)).1

/-- C16, the claim as stated fails: session 5 subscribes, session 6 unsubscribes
that subscription (the broker does not check who owns it), then both sessions
are removed; `subscribers` still lists subscription 1 for session 5. -/
theorem run_closed_sessions_counterexample :
    (NewDefaultBroker.run opsForeignUnsubscribe).2 =
      [(7, Message.Subscribed 1 1), (8, Message.Unsubscribed 2)] ∧
    (NewDefaultBroker.run opsForeignUnsubscribe).1.subscribers.lookup sessFive.ptr =
      some [1] := by
  decide

/-- Why a `Subscribe` has to draw an ID that is not live: once the counter wraps
while subscription 1 of session 5 is live, session 6 is given ID 1 again, and
removing both sessions leaves the first subscription in `routes` and the second
in `subscribers`. -/
theorem Subscribe_reissued_id_leaves_entries :
    (brWrapped.Subscribe sessSix ⟨1, "u"⟩).2 = [(8, Message.Subscribed 1 1)] ∧
    ((brWrapped.run [BrokerOp.subscribe sessSix ⟨1, "u"⟩, BrokerOp.removeSession sessFive,
        BrokerOp.removeSession sessSix]).1.route "t" 1 = some 7) ∧
    ((brWrapped.run [BrokerOp.subscribe sessSix ⟨1, "u"⟩, BrokerOp.removeSession sessFive,
        BrokerOp.removeSession sessSix]).1.subscribers.lookup sessSix.ptr = some [1]) := by
  decide

/-! ### The two registration indices -/

theorem foldl_erase_registrations (l : List RemoteProcedure) :
    ∀ d : defaultDealer,
      (l.foldl (fun d p => { d with registrations := d.registrations.erase p.Procedure })
        d).procedures = d.procedures ∧
      ∀ u, (l.foldl (fun d p => { d with registrations := d.registrations.erase p.Procedure })
        d).registrations.lookup u =
          if u ∈ l.map (fun p => p.Procedure) then none else d.registrations.lookup u := by
  induction l with
  | nil => intro d; exact ⟨rfl, fun u => by simp⟩
  | cons p l ih =>
    intro d
    rw [List.foldl_cons]
    obtain ⟨h1, h2⟩ := ih { d with registrations := d.registrations.erase p.Procedure }
    refine ⟨h1, ?_⟩
    intro u
    rw [h2 u]
    by_cases hu : u = p.Procedure
    · subst hu
      simp
    · by_cases hm : u ∈ l.map (fun p => p.Procedure)
      · simp [hm]
      · simp [hm, hu, AList.lookup_erase_ne hu]

theorem foldl_erase_procedures (l : List ID) :
    ∀ d : defaultDealer,
      (l.foldl (fun d r => { d with procedures := d.procedures.erase r }) d).registrations
        = d.registrations ∧
      ∀ r, (l.foldl (fun d r => { d with procedures := d.procedures.erase r })
        d).procedures.lookup r = if r ∈ l then none else d.procedures.lookup r := by
  induction l with
  | nil => intro d; exact ⟨rfl, fun r => by simp⟩
  | cons p l ih =>
    intro d
    rw [List.foldl_cons]
    obtain ⟨h1, h2⟩ := ih { d with procedures := d.procedures.erase p }
    refine ⟨h1, ?_⟩
    intro r
    rw [h2 r]
    by_cases hr : r = p
    · subst hr
      simp
    · by_cases hm : r ∈ l
      · simp [hm]
      · simp [hm, hr, AList.lookup_erase_ne hr]

theorem mem_hits_iff (d : defaultDealer) (callee : Sender) (r : ID) (rp : RemoteProcedure) :
    (⟨r, rp⟩ : Sigma (fun _ : ID => RemoteProcedure)) ∈
        d.procedures.entries.filter (fun e => e.2.Endpoint = callee) ↔
      d.procedures.lookup r = some rp ∧ rp.Endpoint = callee := by
  rw [List.mem_filter, ← AList.mem_lookup_iff]
  simp

theorem Disconnect_procedures_lookup (d : defaultDealer) (callee : Sender) (r : ID) :
    (d.Disconnect callee).procedures.lookup r =
      if r ∈ [0] ++ (d.procedures.entries.filter (fun e => e.2.Endpoint = callee)).map
          (fun e => e.1) then none
      else d.procedures.lookup r := by
  unfold defaultDealer.Disconnect
  simp only
  rw [(foldl_erase_procedures _ _).2 r, (foldl_erase_registrations _ _).1]

theorem Disconnect_registrations_lookup (d : defaultDealer) (callee : Sender) (u : URI) :
    (d.Disconnect callee).registrations.lookup u =
      if u ∈ ([RemoteProcedure.zero] ++
          (d.procedures.entries.filter (fun e => e.2.Endpoint = callee)).map
            (fun e => e.2)).map (fun p => p.Procedure) then none
      else d.registrations.lookup u := by
  unfold defaultDealer.Disconnect
  simp only
  rw [(foldl_erase_procedures _ _).1, (foldl_erase_registrations _ _).2 u]

theorem lookup_erase_of_none {K V : Type} [DecidableEq K] (m : GoMap K V) (a k : K)
    (h : m.lookup k = none) : (m.erase a).lookup k = none := by
  by_cases hk : k = a
  · subst hk; exact AList.lookup_erase k m
  · rw [AList.lookup_erase_ne hk]; exact h

theorem Disconnect_paired (d : defaultDealer) (callee : Sender) (h : d.Paired) :
    (d.Disconnect callee).Paired := by
  have hP_some : ∀ r rp, (d.Disconnect callee).procedures.lookup r = some rp →
      d.procedures.lookup r = some rp ∧ rp.Endpoint ≠ callee := by
    intro r rp hr
    rw [Disconnect_procedures_lookup] at hr
    split at hr
    · cases hr
    · rename_i hn
      refine ⟨hr, ?_⟩
      intro he
      apply hn
      apply List.mem_append_right
      exact List.mem_map.2 ⟨⟨r, rp⟩, (mem_hits_iff d callee r rp).2 ⟨hr, he⟩, rfl⟩
  have hP_keep : ∀ r rp, d.procedures.lookup r = some rp → rp.Endpoint ≠ callee →
      (d.Disconnect callee).procedures.lookup r = some rp := by
    intro r rp hr he
    rw [Disconnect_procedures_lookup, if_neg]
    · exact hr
    · intro hmem
      rcases List.mem_append.1 hmem with h0 | h0
      · rw [List.mem_singleton] at h0
        rw [h0, h.noZero] at hr
        cases hr
      · obtain ⟨e, he2, he3⟩ := List.mem_map.1 h0
        obtain ⟨r2, rp2⟩ := e
        have := (mem_hits_iff d callee r2 rp2).1 he2
        simp only at he3
        subst he3
        rw [this.1] at hr
        cases hr
        exact he this.2
  have hR_some : ∀ u reg, (d.Disconnect callee).registrations.lookup u = some reg →
      d.registrations.lookup u = some reg ∧
      ∀ r rp, d.procedures.lookup r = some rp → rp.Endpoint = callee →
        rp.Procedure ≠ u := by
    intro u reg hu
    rw [Disconnect_registrations_lookup] at hu
    split at hu
    · cases hu
    · rename_i hn
      refine ⟨hu, ?_⟩
      intro r rp hr he hp
      apply hn
      apply List.mem_map.2
      refine ⟨rp, List.mem_append_right _ ?_, hp⟩
      exact List.mem_map.2 ⟨⟨r, rp⟩, (mem_hits_iff d callee r rp).2 ⟨hr, he⟩, rfl⟩
  have hR_keep : ∀ u reg, d.registrations.lookup u = some reg →
      (∀ r rp, d.procedures.lookup r = some rp → rp.Endpoint = callee →
        rp.Procedure ≠ u) →
      (d.Disconnect callee).registrations.lookup u = some reg := by
    intro u reg hu hno
    rw [Disconnect_registrations_lookup, if_neg]
    · exact hu
    · intro hmem
      obtain ⟨rp, hrp, hpu⟩ := List.mem_map.1 hmem
      rcases List.mem_append.1 hrp with h0 | h0
      · rw [List.mem_singleton] at h0
        subst h0
        have : u = "" := hpu.symm
        rw [this, h.noEmpty] at hu
        cases hu
      · obtain ⟨e, he2, he3⟩ := List.mem_map.1 h0
        obtain ⟨r2, rp2⟩ := e
        have := (mem_hits_iff d callee r2 rp2).1 he2
        simp only at he3
        subst he3
        exact hno r2 rp2 this.1 this.2 hpu
  constructor
  · intro reg rp hr
    obtain ⟨h1, h2⟩ := hP_some reg rp hr
    apply hR_keep _ _ (h.toReg reg rp h1)
    intro r2 rp2 hr2 he2 hp2
    have h3 := h.toReg r2 rp2 hr2
    rw [hp2, h.toReg reg rp h1] at h3
    cases h3
    rw [h1] at hr2
    cases hr2
    exact h2 he2
  · intro u reg hu
    obtain ⟨h1, h2⟩ := hR_some u reg hu
    obtain ⟨e, he⟩ := h.toProc u reg h1
    refine ⟨e, hP_keep reg ⟨e, u⟩ he ?_⟩
    intro hc
    exact h2 reg ⟨e, u⟩ he hc rfl
  · rw [Disconnect_procedures_lookup, if_pos]
    exact List.mem_append_left _ (List.mem_singleton.2 rfl)
  · rw [Disconnect_registrations_lookup, if_pos]
    exact List.mem_map.2 ⟨RemoteProcedure.zero,
      List.mem_append_left _ (List.mem_singleton.2 rfl), rfl⟩

theorem Register_paired (d : defaultDealer) (callee : Sender) (msg : Register) (reg : ID)
    (h : d.Paired) (hadm : d.admitsRegistration (DealerOp.register callee msg reg) = true) :
    (d.Register callee msg reg).1.Paired := by
  simp only [defaultDealer.admitsRegistration, Bool.and_eq_true, Bool.or_eq_true,
    bne_iff_ne, ne_eq, decide_eq_true_eq, Option.isNone_iff_eq_none] at hadm
  obtain ⟨hne, hcase⟩ := hadm
  cases hl : d.registrations.lookup msg.Procedure with
  | some first =>
    have : (d.Register callee msg reg).1 = d := by simp [defaultDealer.Register, hl]
    rw [this]
    exact h
  | none =>
    rw [hl] at hcase
    have hreg : 1 ≤ reg ∧ d.procedures.lookup reg = none := by
      rcases hcase with hc | hc
      · cases hc
      · exact hc
    have hstate : (d.Register callee msg reg).1 =
        { d with procedures := d.procedures.insert reg ⟨callee, msg.Procedure⟩,
                 registrations := d.registrations.insert msg.Procedure reg } := by
      simp [defaultDealer.Register, hl]
    rw [hstate]
    constructor
    · intro r rp hr
      simp only at hr ⊢
      by_cases hrr : r = reg
      · subst hrr
        rw [AList.lookup_insert] at hr
        cases hr
        exact AList.lookup_insert _
      · rw [AList.lookup_insert_ne hrr] at hr
        have h1 := h.toReg r rp hr
        have hp : rp.Procedure ≠ msg.Procedure := by
          intro e
          rw [e, hl] at h1
          cases h1
        rw [AList.lookup_insert_ne hp]
        exact h1
    · intro u r hu
      simp only at hu ⊢
      by_cases huu : u = msg.Procedure
      · subst huu
        rw [AList.lookup_insert] at hu
        cases hu
        exact ⟨callee, AList.lookup_insert _⟩
      · rw [AList.lookup_insert_ne huu] at hu
        obtain ⟨e, he⟩ := h.toProc u r hu
        have hr : r ≠ reg := by
          intro e2
          rw [e2, hreg.2] at he
          cases he
        exact ⟨e, by rw [AList.lookup_insert_ne hr]; exact he⟩
    · simp only
      have h0 : (0 : ID) ≠ reg := by
        intro e
        have := hreg.1
        rw [← e] at this
        exact absurd this (by decide)
      rw [AList.lookup_insert_ne h0]
      exact h.noZero
    · simp only
      have h0 : ("" : URI) ≠ msg.Procedure := fun e => hne e.symm
      rw [AList.lookup_insert_ne h0]
      exact h.noEmpty

theorem Unregister_paired (d : defaultDealer) (callee : Sender) (msg : Unregister)
    (h : d.Paired) : (d.Unregister callee msg).1.Paired := by
  cases hl : d.procedures.lookup msg.Registration with
  | none =>
    have : (d.Unregister callee msg).1 = d := by simp [defaultDealer.Unregister, hl]
    rw [this]
    exact h
  | some proc =>
    have hstate : (d.Unregister callee msg).1 =
        { d with registrations := d.registrations.erase proc.Procedure,
                 procedures := d.procedures.erase msg.Registration } := by
      simp [defaultDealer.Unregister, hl]
    rw [hstate]
    have hP : ∀ r rp, (d.procedures.erase msg.Registration).lookup r = some rp →
        r ≠ msg.Registration ∧ d.procedures.lookup r = some rp := by
      intro r rp hr
      by_cases hrr : r = msg.Registration
      · subst hrr
        rw [AList.lookup_erase] at hr
        cases hr
      · rw [AList.lookup_erase_ne hrr] at hr
        exact ⟨hrr, hr⟩
    have hR : ∀ u r, (d.registrations.erase proc.Procedure).lookup u = some r →
        u ≠ proc.Procedure ∧ d.registrations.lookup u = some r := by
      intro u r hu
      by_cases huu : u = proc.Procedure
      · subst huu
        rw [AList.lookup_erase] at hu
        cases hu
      · rw [AList.lookup_erase_ne huu] at hu
        exact ⟨huu, hu⟩
    constructor
    · intro r rp hr
      simp only at hr ⊢
      obtain ⟨h1, h2⟩ := hP r rp hr
      have h3 := h.toReg r rp h2
      have hp : rp.Procedure ≠ proc.Procedure := by
        intro e
        rw [e, h.toReg _ proc hl] at h3
        cases h3
        exact h1 rfl
      rw [AList.lookup_erase_ne hp]
      exact h3
    · intro u r hu
      simp only at hu ⊢
      obtain ⟨h1, h2⟩ := hR u r hu
      obtain ⟨e, he⟩ := h.toProc u r h2
      have hr : r ≠ msg.Registration := by
        intro e2
        rw [e2, hl] at he
        cases he
        exact h1 rfl
      exact ⟨e, by rw [AList.lookup_erase_ne hr]; exact he⟩
    · exact lookup_erase_of_none _ _ _ h.noZero
    · exact lookup_erase_of_none _ _ _ h.noEmpty

theorem Call_procedures_registrations (d : defaultDealer) (caller : Sender) (msg : Call)
    (i : ID) :
    (d.Call caller msg i).1.procedures = d.procedures ∧
    (d.Call caller msg i).1.registrations = d.registrations := by
  cases h : d.registrations.lookup msg.Procedure with
  | none => simp [defaultDealer.Call, h]
  | some reg =>
    cases h2 : d.procedures.lookup reg <;> simp [defaultDealer.Call, h, h2]

theorem Yield_procedures_registrations (d : defaultDealer) (callee : Sender) (msg : Yield) :
    (d.Yield callee msg).1.procedures = d.procedures ∧
    (d.Yield callee msg).1.registrations = d.registrations := by
  cases h : d.invocations.lookup msg.Request with
  | none => simp [defaultDealer.Yield, h]
  | some c =>
    cases h2 : d.calls.lookup c <;> simp [defaultDealer.Yield, h, h2]

theorem paired_of_fields (d d2 : defaultDealer) (h : d.Paired)
    (hp : d2.procedures = d.procedures) (hr : d2.registrations = d.registrations) :
    d2.Paired := by
  constructor
  · intro reg rp; rw [hp, hr]; exact h.toReg reg rp
  · intro u reg; rw [hp, hr]; exact h.toProc u reg
  · rw [hp]; exact h.noZero
  · rw [hr]; exact h.noEmpty

theorem step_paired (d : defaultDealer) (op : DealerOp) (h : d.Paired)
    (hadm : d.admitsRegistration op = true) : (d.step op).1.Paired := by
  cases op with
  | register callee msg reg => exact Register_paired d callee msg reg h hadm
  | unregister callee msg => exact Unregister_paired d callee msg h
  | disconnect callee => exact Disconnect_paired d callee h
  | call caller msg i =>
    exact paired_of_fields d _ h (Call_procedures_registrations d caller msg i).1
      (Call_procedures_registrations d caller msg i).2
  | yield callee msg =>
    exact paired_of_fields d _ h (Yield_procedures_registrations d callee msg).1
      (Yield_procedures_registrations d callee msg).2

theorem run_paired (ops : List DealerOp) :
    ∀ d : defaultDealer, d.Paired → d.admitsRegistrationAll ops = true →
      (d.run ops).Paired := by
  induction ops with
  | nil => intro d h _; exact h
  | cons op ops ih =>
    intro d h hadm
    simp only [defaultDealer.admitsRegistrationAll, Bool.and_eq_true] at hadm
    exact ih _ (step_paired d op h hadm.1) hadm.2

theorem NewDefaultDealer_paired : NewDefaultDealer.Paired := by
  constructor
  · intro reg rp h; simp [NewDefaultDealer] at h
  · intro u reg h; simp [NewDefaultDealer] at h
  · rfl
  · rfl

/-- C21: in every dealer state reached from an empty dealer by a sequence of
`Register`, `Unregister`, `Disconnect`, `Call` and `Yield` calls in which every
registered procedure URI is non-empty and every registration ID that is drawn
is at least 1 and not yet a key of `procedures`, the two indices are mutually
inverse (`procedures[reg]` has URI `u` exactly when `registrations[u] = reg`),
no two URIs are mapped to the same registration ID, and no `Call` sends the
`ERROR` with `wamp.error.internal_error`. -/
theorem run_registrations_inverse (ops : List DealerOp)
    (hadm : NewDefaultDealer.admitsRegistrationAll ops = true) :
    (∀ reg u, (∃ e, (NewDefaultDealer.run ops).procedures.lookup reg = some ⟨e, u⟩) ↔
      (NewDefaultDealer.run ops).registrations.lookup u = some reg) ∧
    (∀ u u2 reg, (NewDefaultDealer.run ops).registrations.lookup u = some reg →
      (NewDefaultDealer.run ops).registrations.lookup u2 = some reg → u = u2) ∧
    (∀ caller msg i, ∀ x ∈ ((NewDefaultDealer.run ops).Call caller msg i).2,
      ∀ ty r dt, x.2 ≠ Message.Error ty r dt "wamp.error.internal_error") := by
  have h := run_paired ops NewDefaultDealer NewDefaultDealer_paired hadm
  refine ⟨?_, ?_, ?_⟩
  · intro reg u
    constructor
    · rintro ⟨e, he⟩
      exact h.toReg reg ⟨e, u⟩ he
    · exact h.toProc u reg
  · intro u u2 reg hu hu2
    obtain ⟨e, he⟩ := h.toProc u reg hu
    obtain ⟨e2, he2⟩ := h.toProc u2 reg hu2
    rw [he] at he2
    cases he2
    rfl
  · intro caller msg i x hx ty r dt hxe
    cases hl : (NewDefaultDealer.run ops).registrations.lookup msg.Procedure with
    | none =>
      simp only [defaultDealer.Call, hl, List.mem_singleton] at hx
      rw [hx] at hxe
      simp only [Message.Error.injEq] at hxe
      exact absurd hxe.2.2.2 (by decide)
    | some reg =>
      obtain ⟨e, he⟩ := h.toProc _ reg hl
      simp only [defaultDealer.Call, hl, he, List.mem_singleton] at hx
      rw [hx] at hxe
      cases hxe

theorem run_registrations_inverse_witness :
    (NewDefaultDealer.run opsRegistrations).registrations.lookup "com.ex.add" = some 52 ∧
    ∃ e, (NewDefaultDealer.run opsRegistrations).procedures.lookup 52 =
      some ⟨e, "com.ex.add"⟩ :=
  ⟨by decide,
   ((run_registrations_inverse opsRegistrations (by decide)).1 52 "com.ex.add").2
     (by decide)⟩

/-! ### `RemoveSession` on the states the broker reaches -/

/-- C22, the code at failing inputs: with the counters `0, 0, 5, 0, 0, 0`
`formatAndClear` returns the report and leaves the third counter at 5; with all
six counters at 1 it clears the second counter only; with the first counter at
6 the store `s.count[6] = 0` is out of range and the call panics. -/
theorem formatAndClear_leaves_counters :
    (statsRecvFive.formatAndClear.map (fun r => (List.ofFn r.1.count, r.2)) =
      some ([0, 0, 5, 0, 0, 0],
        "WS New: 0 Send: 0 Recv: 5 Close: 0 PeerTO: 0 PeerClosed: 0")) ∧
    (statsAllOne.formatAndClear.map (fun r => (List.ofFn r.1.count, r.2)) =
      some ([1, 0, 1, 1, 1, 1],
        "WS New: 1 Send: 1 Recv: 1 Close: 1 PeerTO: 1 PeerClosed: 1")) ∧
    (statsSixPeers.formatAndClear.map (fun r => (List.ofFn r.1.count, r.2)) = none) := by
  decide

end Turnpike
